import Mathlib

/-!
# Verification of the movieHub crawl-and-index engine

Shallow embedding of the two indexers in `src/indexers/movies.py` and
`src/indexers/series.py` (classes `MoviesIndexer` and `SeriesIndexer`),
together with proofs settling the specification claims about them.

Modelling conventions:
* Python strings are Lean `String`s; the Python methods `upper`, `lower`,
  `in` (substring), `startswith`, `endswith`, `isdigit` are modelled by the
  `py*` helpers below, faithful on the ASCII inputs the program handles.
* A fetched page is the list of its anchor tags (`bs4` returns `find_all "a"`);
  an anchor has an optional `title` attribute and an `href` string.
* A fixture web site is a function `Site : String → Option (List Tag)`:
  `none` models `_fetch` returning `None` after exhausting its retries,
  `some tags` models a successfully parsed page.  The per-attempt retry
  behaviour of `_fetch` is modelled separately (`fetchFrom`) at the level of
  an attempt oracle; the crawlers observe only the collapsed result.
* File writes (`_save_progress`) and fetches are recorded in an event log so
  that temporal claims (save-before-continuing, no re-fetch) can be stated.
* The `added_date` field is a wall-clock timestamp (`datetime.now()`); the
  claims under verification explicitly ignore it, so it is omitted from the
  `Item` model.
-/

namespace MovieHub

/-! ## Python string primitives -/

/-- Python `str.upper()` (ASCII model). -/
def pyUpper (s : String) : String := ⟨s.data.map Char.toUpper⟩

/-- Python `str.lower()` (ASCII model). -/
def pyLower (s : String) : String := ⟨s.data.map Char.toLower⟩

/-- Boolean infix test on character lists. -/
def infixB (pat : List Char) : List Char → Bool
  | [] => pat.isPrefixOf []
  | c :: rest => pat.isPrefixOf (c :: rest) || infixB pat rest

/-- Python `pat in s` substring test, for nonempty `pat`. -/
def pyContains (s pat : String) : Bool := infixB pat.data s.data

/-- Python `s.startswith(pre)`. -/
def pyStartsWith (s pre : String) : Bool := pre.data.isPrefixOf s.data

/-- Python `s.endswith(suf)`. -/
def pyEndsWith (s suf : String) : Bool := suf.data.isSuffixOf s.data

/-- Python `s.isdigit()` (ASCII model: nonempty and all digits). -/
def pyIsDigit (s : String) : Bool := !s.data.isEmpty && s.data.all Char.isDigit

/-- Worker for `pySplit`: split at each non-overlapping left-to-right
occurrence of `sep` (nonempty).  The fuel argument only serves structural
recursion; it is initialised above the input length, and every step
consumes at least one character. -/
def splitGo (sep : List Char) : Nat → List Char → List (List Char)
  | 0, l => [l]
  | _ + 1, [] => [[]]
  | fuel + 1, c :: rest =>
    if sep.isPrefixOf (c :: rest) then
      [] :: splitGo sep fuel ((c :: rest).drop sep.length)
    else
      match splitGo sep fuel rest with
      | [] => [[c]]
      | g :: gs => (c :: g) :: gs

/-- Python `s.split(sep)` for nonempty `sep` (the only way the program
calls it; `sep=""` raises in Python). -/
def pySplit (s sep : String) : List String :=
  if sep.data.isEmpty then [s]
  else (splitGo sep.data (s.data.length + 1) s.data).map (fun l => ⟨l⟩)

/-- Worker for `pyReplace`: replace each non-overlapping left-to-right
occurrence of `old` (nonempty) by `new`. -/
def replaceGo (old new : List Char) : Nat → List Char → List Char
  | 0, l => l
  | _ + 1, [] => []
  | fuel + 1, c :: rest =>
    if old.isPrefixOf (c :: rest) then
      new ++ replaceGo old new fuel ((c :: rest).drop old.length)
    else c :: replaceGo old new fuel rest

/-- Python `s.replace(old, new)` for nonempty `old` (the only way the
program calls it). -/
def pyReplace (s old new : String) : String :=
  if old.data.isEmpty then s
  else ⟨replaceGo old.data new.data (s.data.length + 1) s.data⟩

/-- Python `s.strip()` (ASCII whitespace model). -/
def pyStrip (s : String) : String :=
  ⟨((s.data.dropWhile Char.isWhitespace).reverse.dropWhile Char.isWhitespace).reverse⟩

/-- Python `int(t)` for an all-digit string, as used on the collected
digits of a `"season"` segment. -/
def digitsToNat : List Char → Nat → Nat
  | [], acc => acc
  | c :: rest, acc => digitsToNat rest (acc * 10 + (c.toNat - '0'.toNat))

/-- Truthiness of `tag.get("title")` in Python: `None` and `""` are falsy. -/
def truthy : Option String → Bool
  | none => false
  | some s => !(s == "")

/-! ## Data model -/

/-- An anchor tag as seen through `soup.find_all("a")`: an optional `title`
attribute and an `href` attribute. -/
structure Tag where
  title : Option String
  href : String
  deriving DecidableEq, Repr

/-- The `quality_info` dictionary built by `_extract_quality`. -/
structure QualityInfo where
  resolution : String
  codec : String
  source : String
  bit_depth : String
  deriving DecidableEq, Repr

/-- One file-level entry of `extra_info["quality_details"]`. -/
structure QualityDetail where
  url : String
  filename : String
  quality : QualityInfo
  deriving DecidableEq, Repr

/-- One catalog item (a movie or series entry).  `added_date` is omitted:
it is a wall-clock timestamp that the claims ignore. -/
structure Item where
  url : String
  title : String
  content : List String
  extracted_year : String
  extracted_name : String
  quality_details : List QualityDetail
  deriving DecidableEq, Repr

/-- The checkpoint cursor: the movies indexer stores the last movie URL,
and the initial default document stores the integer `0`. -/
inductive Cursor where
  | num (n : Nat)
  | str (s : String)
  deriving DecidableEq, Repr

/-- The `last_processed` checkpoint `{index, cursor}`. -/
structure Checkpoint where
  index : Nat
  cursor : Cursor
  deriving DecidableEq, Repr

/-- The persisted document: grouping key (lower-cased year title) to ordered
item list, in dict insertion order, plus the optional checkpoint. -/
structure Catalog where
  buckets : List (String × List Item)
  last_processed : Option Checkpoint
  deriving DecidableEq, Repr

/-- Python exceptions that can escape the embedded code. -/
inductive PyErr where
  | valueError
  | attributeError
  deriving DecidableEq, Repr

/-- Observable events of a run: page fetches issued by the traversal loops,
the movie-page fetch issued inside `_process_movie`, acceptance of a new
`Item` into the catalog, and `_save_progress` writes. -/
inductive Ev where
  | fetchPage (url : String)
  | fetchMovie (url : String)
  | accept (url : String)
  | save (d : Catalog)
  deriving DecidableEq, Repr

/-- Crawl state: in-memory document, the `processed_urls` set (as a
duplicate-free-by-construction list), and the event log. -/
structure St where
  doc : Catalog
  processed : List String
  events : List Ev
  deriving DecidableEq, Repr

/-- A fixture site: `none` is a fetch failure (after retries), `some tags`
a parsed page's anchor list.  Pages do not change during or between runs. -/
def Site := String → Option (List Tag)

/-- `self.working_index` of both indexers. -/
def working_index : List Nat := [2, 3, 4, 5, 11, 12]

/-- Set insertion for `self.processed_urls.add`. -/
def addUrl (p : List String) (u : String) : List String :=
  if u ∈ p then p else p ++ [u]

/-! ## Metadata extractor (identical in both indexer classes) -/

/-- Ordered resolution token list of `_extract_quality`. -/
def resolutions : List String := ["720p", "1080p", "2160p", "480p", "360p"]

/-- Ordered codec token list of `_extract_quality`. -/
def codecs : List String := ["x264", "x265", "HEVC", "AVC", "H264", "H.264", "H265", "H.265"]

/-- Ordered source token list of `_extract_quality`. -/
def sources : List String := ["WEB-DL", "WEBRip", "BRRip", "BluRay", "HDTV", "DVDRip", "NF"]

/-- Ordered bit-depth token list of `_extract_quality`. -/
def bit_depths : List String := ["8bit", "10bit", "10Bit", "8Bit"]

/-- First token of `toks` whose uppercasing occurs in `search`; models the
`for tok in toks: if tok.upper() in search_text: ...; break` loops. -/
def scanFirst (search : String) : List String → Option String
  | [] => none
  | t :: ts => if pyContains search (pyUpper t) then some t else scanFirst search ts

/-- The search text `f"{url} {filename}".upper()`. -/
def searchText (url filename : String) : String := pyUpper (url ++ " " ++ filename)

/-- The result of the four ordered scans alone, before the overrides. -/
def scanQuality (url filename : String) : QualityInfo :=
  let search := searchText url filename
  { resolution := (scanFirst search resolutions).getD "unknown"
    codec := (scanFirst search codecs).getD "unknown"
    source := (scanFirst search sources).getD "unknown"
    bit_depth := ((scanFirst search bit_depths).map pyLower).getD "unknown" }

/-- The two special-case overrides applied after the ordered scans. -/
def applyOverrides (url filename : String) (q : QualityInfo) : QualityInfo :=
  let search := searchText url filename
  let q := if pyContains search "HEVC" then { q with codec := "HEVC" } else q
  if pyContains search "NF." || pyContains search ".NF." then
    { q with source := "NF" } else q

/-- `MoviesIndexer._extract_quality` / `SeriesIndexer._extract_quality`
(the two methods are textually identical). -/
def extract_quality (url filename : String) : QualityInfo :=
  applyOverrides url filename (scanQuality url filename)

/-- The release-metadata token denylist of `_extract_movie_info` and
`_extract_series_info`. -/
def indicators : List String :=
  ["1080p", "720p", "2160p", "480p", "BluRay", "WEB-DL", "HEVC", "x264", "x265",
   "WEBRip", "BRRip", "HDTV", "DVDRip"]

/-- A path segment that is a 4-character all-digit token. -/
def isYear4 (s : String) : Bool := pyIsDigit s && s.length == 4

/-- Name normalisation applied to the segment after the year: replace `.`
with space and strip, strip each denylist token, then strip the year token
if still present. -/
def normalizeName (raw year : String) : String :=
  let n := pyStrip (pyReplace raw "." " ")
  let n := indicators.foldl (fun acc ind => pyStrip (pyReplace acc ind "")) n
  if pyContains n year then pyStrip (pyReplace n year "") else n

/-- The scan loop of `_extract_movie_info` over the path segments: a 4-digit
segment (re)sets the year, and when a following segment exists it (re)sets
the normalised name. -/
def movieInfoLoop : List String → String × String → String × String
  | [], acc => acc
  | [p], (y, n) => if isYear4 p then (p, n) else (y, n)
  | p :: q :: rest, (y, n) =>
    if isYear4 p then movieInfoLoop (q :: rest) (p, normalizeName q p)
    else movieInfoLoop (q :: rest) (y, n)

/-- `MoviesIndexer._extract_movie_info`. -/
def extract_movie_info (url : String) : String × String :=
  match pySplit url "Movie/" with
  | _ :: p1 :: _ => movieInfoLoop (pySplit p1 "/") ("", "")
  | _ => ("", "")

/-- The `S<02d>` formatting of the `"season"` branch of
`_extract_series_info` (`f"S{n:02d}"`). -/
def seasonFmt (n : Nat) : String :=
  if n < 10 then "S0" ++ toString n else "S" ++ toString n

/-- The scan loop of `_extract_series_info`: the year/name branch as in the
movie variant, plus the two season branches. -/
def seriesInfoLoop : List String → String × String × String → String × String × String
  | [], acc => acc
  | [p], (y, n, s) =>
    if isYear4 p then (p, n, s)
    else if pyStartsWith (pyLower p) "s" && pyIsDigit ⟨p.data.drop 1⟩ then (y, n, p)
    else if pyContains (pyLower p) "season" && p.data.any Char.isDigit then
      (y, n, seasonFmt (digitsToNat (p.data.filter Char.isDigit) 0))
    else (y, n, s)
  | p :: q :: rest, (y, n, s) =>
    if isYear4 p then seriesInfoLoop (q :: rest) (p, normalizeName q p, s)
    else if pyStartsWith (pyLower p) "s" && pyIsDigit ⟨p.data.drop 1⟩ then
      seriesInfoLoop (q :: rest) (y, n, p)
    else if pyContains (pyLower p) "season" && p.data.any Char.isDigit then
      seriesInfoLoop (q :: rest)
        (y, n, seasonFmt (digitsToNat (p.data.filter Char.isDigit) 0))
    else seriesInfoLoop (q :: rest) (y, n, s)

/-- `SeriesIndexer._extract_series_info`. -/
def extract_series_info (url : String) : String × String × String :=
  match pySplit url "Series/" with
  | _ :: p1 :: _ => seriesInfoLoop (pySplit p1 "/") ("", "", "")
  | _ => ("", "", "")

/-! ## Shared progress store -/

/-- URLs of one item in the order `_load_progress` records them. -/
def itemUrls (it : Item) : List String := it.url :: it.content

/-- URLs of a list of items. -/
def itemsUrls : List Item → List String
  | [] => []
  | it :: its => itemUrls it ++ itemsUrls its

/-- All item and content URLs of a catalog, in `_load_progress` order. -/
def docUrlList : List (String × List Item) → List String
  | [] => []
  | (_, its) :: rest => itemsUrls its ++ docUrlList rest

/-- `_load_progress`: read the document (or the default on
`FileNotFoundError`) and seed `processed_urls` from every item URL and
content URL.  The default checkpoint cursor is the integer `0` in both
indexers (`{"index": 2, "movie": 0}` / `{"index": 2, "series": 0}`). -/
def load_progress (disk : Option Catalog) : Catalog × List String :=
  match disk with
  | some d => (d, docUrlList d.buckets)
  | none => ({ buckets := [], last_processed := some ⟨2, .num 0⟩ }, [])

/-- `indexes.get("last_processed", {}).get("index", self.working_index[0])`. -/
def startIndex (d : Catalog) : Nat :=
  match d.last_processed with
  | some cp => cp.index
  | none => working_index.headD 0

/-- `self.working_index[self.working_index.index(start):]` when `start`
occurs in the list (`.index` raises `ValueError` otherwise; the callers
below check membership first and model that case as `PyErr.valueError`). -/
def sliceFrom (l : List Nat) (s : Nat) : List Nat := l.dropWhile (fun x => !(x == s))

/-- Append an event to the log. -/
def logEv (st : St) (e : Ev) : St := { st with events := st.events ++ [e] }

/-! ## Movies indexer (`MoviesIndexer`) -/

/-- Append an item to the bucket of `key`, creating the bucket at the end
of the document when absent (Python dict insertion order). -/
def bucketAppend : List (String × List Item) → String → Item → List (String × List Item)
  | [], key, it => [(key, [it])]
  | (k, its) :: rest, key, it =>
    if k == key then (k, its ++ [it]) :: rest
    else (k, its) :: bucketAppend rest key it

/-- The content loop of `_process_movie` over the movie page's tags:
collect fresh content URLs and their quality records, adding each to
`processed_urls` as it is taken.  Returns
`(content_urls, extra_info, processed_urls)`. -/
def contentLoop (movie_url : String) : List Tag → List String →
    List String × List QualityDetail × List String
  | [], p => ([], [], p)
  | t :: ts, p =>
    if truthy t.title && (pyEndsWith t.href "mkv" || pyEndsWith t.href "mp4") then
      let cu := movie_url ++ t.href
      if cu ∈ p then contentLoop movie_url ts p
      else
        let rest := contentLoop movie_url ts (addUrl p cu)
        (cu :: rest.1, ⟨cu, t.href, extract_quality cu t.href⟩ :: rest.2.1, rest.2.2)
    else contentLoop movie_url ts p

/-- `MoviesIndexer._process_movie`. -/
def process_movie (site : Site) (year_url : String) (tag : Tag) (year_title : String)
    (idx : Nat) (st : St) : St :=
  match tag.title with
  | none => st
  | some title =>
    let movie_url := year_url ++ tag.href
    if movie_url ∈ st.processed then st
    else
      let st1 := logEv st (.fetchMovie movie_url)
      match site movie_url with
      | none => st1
      | some links =>
        let info := extract_movie_info movie_url
        let res := contentLoop movie_url links st1.processed
        match res.1 with
        | [] => { st1 with processed := res.2.2 }
        | cus =>
          let item : Item :=
            { url := movie_url, title := title, content := cus,
              extracted_year := info.1, extracted_name := info.2,
              quality_details := res.2.1 }
          let doc1 : Catalog :=
            { buckets := bucketAppend st1.doc.buckets (pyLower year_title) item,
              last_processed := some ⟨idx, .str movie_url⟩ }
          { doc := doc1,
            processed := addUrl res.2.2 movie_url,
            events := st1.events ++ [.accept movie_url, .save doc1] }

/-- The movie-tag loop of `create_index` at one year page. -/
def yearMovies (site : Site) (year_url year_title : String) (idx : Nat) :
    List Tag → St → St
  | [], st => st
  | t :: ts, st =>
    yearMovies site year_url year_title idx ts
      (process_movie site year_url t year_title idx st)

/-- The year-link loop of `create_index` at one category page (a year link
without a truthy title is skipped; a failed fetch of the year page skips
that year). -/
def yearsLoop (site : Site) (movie_path : String) (idx : Nat) : List Tag → St → St
  | [], st => st
  | y :: ys, st =>
    match y.title with
    | none => yearsLoop site movie_path idx ys st
    | some ytitle =>
      if ytitle == "" then yearsLoop site movie_path idx ys st
      else
        let year_url := movie_path ++ y.href
        let st1 := logEv st (.fetchPage year_url)
        match site year_url with
        | none => yearsLoop site movie_path idx ys st1
        | some pg =>
          yearsLoop site movie_path idx ys (yearMovies site year_url ytitle idx pg st1)

/-- The category-link loop of `create_index` at one mirror page: only
links whose truthy title contains "movie" (case-insensitive) are
descended. -/
def categoryLoop (site : Site) (url : String) (idx : Nat) : List Tag → St → St
  | [], st => st
  | l :: ls, st =>
    match l.title with
    | none => categoryLoop site url idx ls st
    | some t =>
      if t == "" || !pyContains (pyLower t) "movie" then categoryLoop site url idx ls st
      else
        let movie_path := url ++ l.href
        let st1 := logEv st (.fetchPage movie_path)
        match site movie_path with
        | none => categoryLoop site url idx ls st1
        | some pg =>
          categoryLoop site url idx ls (yearsLoop site movie_path idx pg st1)

/-- Mirror URL of the movies indexer: `f"https://dl{index}.sermoviedown.pw/"`. -/
def mirrorUrl (i : Nat) : String := "https://dl" ++ toString i ++ ".sermoviedown.pw/"

/-- The mirror loop of `MoviesIndexer.create_index`. -/
def mirrorsLoop (site : Site) : List Nat → St → St
  | [], st => st
  | i :: rest, st =>
    let url := mirrorUrl i
    let st1 := logEv st (.fetchPage url)
    match site url with
    | none => mirrorsLoop site rest st1
    | some pg => mirrorsLoop site rest (categoryLoop site url i pg st1)

/-- `MoviesIndexer.create_index`: load progress, resume from the
checkpointed mirror, traverse, then remove the checkpoint and save. -/
def moviesCreateIndex (site : Site) (disk : Option Catalog) : St × Option PyErr :=
  let d0 := load_progress disk
  let s := startIndex d0.1
  if s ∈ working_index then
    let st := mirrorsLoop site (sliceFrom working_index s) ⟨d0.1, d0.2, []⟩
    let d1 : Catalog := { st.doc with last_processed := none }
    ({ doc := d1, processed := st.processed, events := st.events ++ [.save d1] }, none)
  else (⟨d0.1, d0.2, []⟩, some .valueError)

/-! ## Series indexer (`SeriesIndexer`)

`urljoin` is `urllib.parse.urljoin`; `urljoinM` models it for the inputs
this program produces: an absolute `http(s)` base URL and either an
absolute reference or a plain relative path segment (no `..`, no
root-relative `/...`, no query/fragment).  On those inputs `urljoin`
returns the reference itself when absolute, and otherwise replaces
everything after the last `/` of the base with the reference. -/

/-- The base URL up to and including its last `/`. -/
def dropLastSegment (s : String) : String :=
  ⟨(s.data.reverse.dropWhile (fun c => !(c == '/'))).reverse⟩

/-- Model of `urllib.parse.urljoin` (see section comment). -/
def urljoinM (base rel : String) : String :=
  if rel == "" then base
  else if pyStartsWith rel "http://" || pyStartsWith rel "https://" then rel
  else dropLastSegment base ++ rel

/-- Does any item of the list carry this exact title?  Models the
`next((s for s in series_entry if s["title"] == series_name), None)`
lookup. -/
def itemsHaveTitle (title : String) : List Item → Bool
  | [] => false
  | it :: its => it.title == title || itemsHaveTitle title its

/-- Title lookup in the bucket of `key` (after `setdefault`, so an absent
bucket behaves as empty). -/
def seriesHasTitle : List (String × List Item) → String → String → Bool
  | [], _, _ => false
  | (k, its) :: rest, key, title =>
    if k == key then itemsHaveTitle title its else seriesHasTitle rest key title

/-- Mutate the first item with matching title: append the content URL and
the quality record.  `none` when no item matches. -/
def updateItems (title full_url : String) (qd : QualityDetail) :
    List Item → Option (List Item)
  | [] => none
  | it :: its =>
    if it.title == title then
      some ({ it with content := it.content ++ [full_url],
                      quality_details := it.quality_details ++ [qd] } :: its)
    else (updateItems title full_url qd its).map (it :: ·)

/-- The leaf-recording step of `_recursive_fetch`: `setdefault` the bucket
of `key`, then either extend the existing item with this title or append
a fresh item whose `extra_info` carries empty `extracted_name` and
`extracted_year`. -/
def seriesItemAdd (key title iurl full_url : String) (qd : QualityDetail) :
    List (String × List Item) → List (String × List Item)
  | [] =>
    [(key, [{ url := iurl, title := title, content := [full_url],
              extracted_year := "", extracted_name := "",
              quality_details := [qd] }])]
  | (k, its) :: rest =>
    if k == key then
      match updateItems title full_url qd its with
      | some its2 => (k, its2) :: rest
      | none => (k, its ++ [{ url := iurl, title := title, content := [full_url],
                              extracted_year := "", extracted_name := "",
                              quality_details := [qd] : Item }]) :: rest
    else (k, its) :: seriesItemAdd key title iurl full_url qd rest

/-- The link loop of one `_recursive_fetch` iteration: titled leaf links
are recorded (with no check against `processed_urls`), titled non-leaf
links are collected for pushing onto the work stack, untitled links are
skipped.  Returns the state and the pushed URLs in iteration order. -/
def linkLoop (base_url current_url year_title series_name : String) :
    List Tag → St → List String → St × List String
  | [], st, pushes => (st, pushes)
  | l :: ls, st, pushes =>
    if !truthy l.title then linkLoop base_url current_url year_title series_name ls st pushes
    else
      let href := l.href
      let full_url := urljoinM current_url href
      if pyEndsWith href "mkv" || pyEndsWith href "mp4" then
        let qd : QualityDetail := ⟨full_url, href, extract_quality full_url href⟩
        let iurl := urljoinM base_url series_name
        let isNew := !seriesHasTitle st.doc.buckets (pyLower year_title) series_name
        let bs2 := seriesItemAdd (pyLower year_title) series_name iurl full_url qd st.doc.buckets
        let st2 : St :=
          { doc := { st.doc with buckets := bs2 },
            processed := addUrl st.processed full_url,
            events := st.events ++ (if isNew then [Ev.accept iurl] else []) }
        linkLoop base_url current_url year_title series_name ls st2 pushes
      else
        linkLoop base_url current_url year_title series_name ls st (pushes ++ [full_url])

/-- `SeriesIndexer._recursive_fetch`, fuel-bounded.  The stack is modelled
head-as-top (`list.pop()` pops the Python list's tail); a popped URL that
is already visited or already processed is discarded; otherwise it is
fetched (a failure skips it) and its links are processed.  Fuel `0`
truncates the traversal, returning the state reached so far. -/
def recFetch (site : Site) (base_url year_title year series_name : String) :
    Nat → List String → List String → St → St
  | 0, _, _, st => st
  | fuel + 1, stack, visited, st =>
    match stack with
    | [] => st
    | cur :: rest =>
      if cur ∈ visited || cur ∈ st.processed then
        recFetch site base_url year_title year series_name fuel rest visited st
      else
        let visited2 := cur :: visited
        let st1 := logEv st (.fetchPage cur)
        match site cur with
        | none => recFetch site base_url year_title year series_name fuel rest visited2 st1
        | some links =>
          let res := linkLoop base_url cur year_title series_name links st1 []
          recFetch site base_url year_title year series_name fuel
            (res.2.reverse ++ rest) visited2 res.1

/-- `SeriesIndexer._process_series`: skip an already-processed series URL,
fetch it (failure skips it entirely, with no save), run the recursive
fetch, mark the series URL processed, and save. -/
def process_series (site : Site) (fuel : Nat) (series_url : String) (st : St) : St :=
  if series_url ∈ st.processed then st
  else
    let st1 := logEv st (.fetchPage series_url)
    match site series_url with
    | none => st1
    | some _ =>
      let info := extract_series_info series_url
      let st2 := recFetch site series_url info.1 info.1 info.2.1 fuel [series_url] [] st1
      let st3 : St := { st2 with processed := addUrl st2.processed series_url }
      { st3 with events := st3.events ++ [.save st3.doc] }

/-- The series-link loop of `SeriesIndexer.create_index` at one year page. -/
def seriesListLoop (site : Site) (fuel : Nat) (year_url : String) :
    List Tag → St → St
  | [], st => st
  | l :: ls, st =>
    if !truthy l.title then seriesListLoop site fuel year_url ls st
    else
      seriesListLoop site fuel year_url ls
        (process_series site fuel (urljoinM year_url l.href) st)

/-- The year-link loop of `SeriesIndexer.create_index` at one mirror page.
The code fetches the year page and calls `soup.find_all("a")` without a
`None` check, so a fetch failure there raises `AttributeError`
(`'NoneType' object has no attribute 'find_all'`), modelled as
`PyErr.attributeError`. -/
def seriesYearLoop (site : Site) (fuel : Nat) (url : String) :
    List Tag → St → St × Option PyErr
  | [], st => (st, none)
  | l :: ls, st =>
    if !truthy l.title then seriesYearLoop site fuel url ls st
    else
      let year_url := url ++ "/" ++ l.href
      let st1 := logEv st (.fetchPage year_url)
      match site year_url with
      | none => (st1, some .attributeError)
      | some series_links =>
        seriesYearLoop site fuel url ls (seriesListLoop site fuel year_url series_links st1)

/-- Mirror URL of the series indexer:
`f"https://dl{index}.sermoviedown.pw/Series"`. -/
def seriesMirrorUrl (i : Nat) : String :=
  "https://dl" ++ toString i ++ ".sermoviedown.pw/Series"

/-- The mirror loop of `SeriesIndexer.create_index`. -/
def seriesMirrors (site : Site) (fuel : Nat) : List Nat → St → St × Option PyErr
  | [], st => (st, none)
  | i :: rest, st =>
    let url := seriesMirrorUrl i
    let st1 := logEv st (.fetchPage url)
    match site url with
    | none => seriesMirrors site fuel rest st1
    | some links =>
      match seriesYearLoop site fuel url links st1 with
      | (st2, none) => seriesMirrors site fuel rest st2
      | (st2, some e) => (st2, some e)

/-- `SeriesIndexer.create_index`: load progress, resume from the
checkpointed mirror, traverse, then pop `last_processed` from the
in-memory document.  Note: unlike the movies indexer, there is no
`_save_progress` call after the pop. -/
def seriesCreateIndex (site : Site) (disk : Option Catalog) (fuel : Nat) :
    St × Option PyErr :=
  let d0 := load_progress disk
  let s := startIndex d0.1
  if s ∈ working_index then
    match seriesMirrors site fuel (sliceFrom working_index s) ⟨d0.1, d0.2, []⟩ with
    | (st, none) => ({ st with doc := { st.doc with last_processed := none } }, none)
    | (st, some e) => (st, some e)
  else (⟨d0.1, d0.2, []⟩, some .valueError)

/-! ## Run observables -/

/-- The document written by the last `_save_progress` of a run: the
content of the save file after the run. -/
def lastSavedDoc : List Ev → Option Catalog
  | [] => none
  | e :: rest =>
    match lastSavedDoc rest with
    | some d => some d
    | none => match e with | .save d => some d | _ => none

/-- Does any item of the list have `u` as its `url` field? -/
def itemsHaveUrl (u : String) : List Item → Bool
  | [] => false
  | it :: its => it.url == u || itemsHaveUrl u its

/-- Does the catalog contain an item whose `url` field is `u`? -/
def docHasItemUrl : List (String × List Item) → String → Bool
  | [], _ => false
  | (_, its) :: rest, u => itemsHaveUrl u its || docHasItemUrl rest u

/-- Does the checkpoint cursor of `d` point at the item URL `u`? -/
def cursorIs (d : Catalog) (u : String) : Bool :=
  match d.last_processed with
  | some cp => match cp.cursor with | .str s => s == u | .num _ => false
  | none => false

/-- One step of the persist-per-item checker.  The state is `none` after
a violation, `some (some u)` while the acceptance of the item `u` has not
been followed by a save yet, `some none` otherwise.  While an acceptance
is pending, the only legal next event is a `save` of a document that
contains the accepted item and whose checkpoint cursor names it; in
particular any fetch (that is, any further traversal) violates the
discipline. -/
def c3step : Option (Option String) → Ev → Option (Option String)
  | none, _ => none
  | some (some u), e =>
    match e with
    | .save d => if docHasItemUrl d.buckets u && cursorIs d u then some none else none
    | _ => none
  | some none, e =>
    match e with
    | .accept u => some (some u)
    | _ => some none

/-- Run the persist-per-item checker over an event log. -/
def c3run (l : List Ev) : Option (Option String) := l.foldl c3step (some none)

/-- The persist-per-item discipline holds of an event log. -/
def c3ok (l : List Ev) : Bool := (c3run l).isSome

/-- Are all `content` lists of the item list free of duplicates? -/
def itemsContentNodup : List Item → Bool
  | [] => true
  | it :: its => decide it.content.Nodup && itemsContentNodup its

/-- Are all `content` lists of the catalog free of duplicates? -/
def contentDupFree : List (String × List Item) → Bool
  | [] => true
  | (_, its) :: rest => itemsContentNodup its && contentDupFree rest

/-- The `url` field of every item of the catalog. -/
def itemUrlsOnly : List (String × List Item) → List String
  | [] => []
  | (_, its) :: rest => its.map Item.url ++ itemUrlsOnly rest

/-- Do all items of the list carry empty `extracted_name` and
`extracted_year`? -/
def itemsBlank : List Item → Bool
  | [] => true
  | it :: its => it.extracted_name == "" && it.extracted_year == "" && itemsBlank its

/-- Do all items of the catalog carry empty `extracted_name` and
`extracted_year` in their `extra_info`? -/
def itemsBlankExtra : List (String × List Item) → Bool
  | [] => true
  | (_, its) :: rest => itemsBlank its && itemsBlankExtra rest

/-! ## Fixture sites

Small unchanging fixture sites used for concrete runs.  Unlisted URLs
answer `none` (fetch failure after retries). -/

/-- Movies fixture: mirror 2 serves one category page with two usable
category links.  The second category link's URL coincides with the movie
URL recorded while processing the first, so the (unconditional) category
fetch of a later run targets a recorded URL.  The movie `n` has no
content files and is therefore never recorded. -/
def siteM1 : Site := fun u =>
  if u == "https://dl2.sermoviedown.pw/" then
    some [⟨some "Movies", "a/"⟩, ⟨some "movie list", "a/yb/m"⟩]
  else if u == "https://dl2.sermoviedown.pw/a/" then
    some [⟨some "2016", "yb/"⟩]
  else if u == "https://dl2.sermoviedown.pw/a/yb/" then
    some [⟨some "Example Movie", "m"⟩, ⟨some "Empty Movie", "n"⟩]
  else if u == "https://dl2.sermoviedown.pw/a/yb/m" then
    some [⟨some "f", ".f.mkv"⟩]
  else if u == "https://dl2.sermoviedown.pw/a/yb/n" then
    some []
  else none

/-- Series fixture: one mirror, one year, one series page that links the
same leaf file twice and one subdirectory. -/
def siteS1 : Site := fun u =>
  if u == "https://dl2.sermoviedown.pw/Series" then
    some [⟨some "2016", "2016/"⟩]
  else if u == "https://dl2.sermoviedown.pw/Series/2016/" then
    some [⟨some "Example Show", "Example.Show.2016.1080p/"⟩]
  else if u == "https://dl2.sermoviedown.pw/Series/2016/Example.Show.2016.1080p/" then
    some [⟨some "file", "Example.Show.S01E01.1080p.NF.WEB-DL.mkv"⟩,
          ⟨some "file", "Example.Show.S01E01.1080p.NF.WEB-DL.mkv"⟩,
          ⟨some "Extras", "Extras/"⟩]
  else if u == "https://dl2.sermoviedown.pw/Series/2016/Example.Show.2016.1080p/Extras/" then
    some []
  else none

/-- Series fixture on which the year-page fetch fails: the mirror page
lists a year link, but the year URL itself is unreachable. -/
def siteS2 : Site := fun u =>
  if u == "https://dl2.sermoviedown.pw/Series" then
    some [⟨some "2016", "2016/"⟩]
  else none

/-- First movies run on the fixture, from a fresh save file. -/
def moviesRun1 : St × Option PyErr := moviesCreateIndex siteM1 none

/-- The document on disk after the first movies run. -/
def moviesDisk1 : Catalog := moviesRun1.1.doc

/-- Second movies run, loading the persisted document of the first. -/
def moviesRun2 : St × Option PyErr := moviesCreateIndex siteM1 (some moviesDisk1)

/-- First series run on the fixture, from a fresh save file. -/
def seriesRun1 : St × Option PyErr := seriesCreateIndex siteS1 none 40

/-- The document on disk after the first series run (the last save). -/
def seriesDisk1 : Catalog := (lastSavedDoc seriesRun1.1.events).getD ⟨[], none⟩

/-- Second series run, loading the persisted document of the first. -/
def seriesRun2 : St × Option PyErr := seriesCreateIndex siteS1 (some seriesDisk1) 40

/-! ## The fetcher `_fetch` (attempt-level model)

`_fetch` loops `for attempt in range(retries)`: a 2xx/3xx response
(`response.ok`) returns the parsed page; a delivered non-2xx response logs
a warning and retries immediately; a `requests.RequestException` logs an
error and, when the attempt is not the last, sleeps 2 seconds before the
next attempt.  Exhausting the loop returns `None`.  No exception escapes:
`RequestException` is caught and a response object never raises. -/

/-- Outcome of one GET attempt. -/
inductive FetchAttempt where
  | ok (page : List Tag)
  | httpError (status : Nat)
  | transportError
  deriving DecidableEq, Repr

/-- Per-attempt behaviour of a fetch target. -/
def Oracle := String → Nat → FetchAttempt

/-- Did the attempt succeed (`response.ok`)? -/
def isOkA : FetchAttempt → Bool
  | .ok _ => true
  | _ => false

/-- Observables of one `_fetch` call: the returned value, the number of
GET attempts issued, and the total time slept in backoff. -/
structure FetchRun where
  result : Option (List Tag)
  attempts : Nat
  sleepUnits : Nat
  deriving DecidableEq, Repr

/-- The retry loop of `_fetch`: `remaining` counts the loop iterations
left (`retries - attempt`), `attempt` is the Python loop variable.  The
backoff sleep happens only in the `except RequestException` branch, and
only when `attempt < retries - 1`. -/
def fetchGo (o : Oracle) (url : String) (retries : Nat) :
    Nat → Nat → FetchRun
  | 0, _ => ⟨none, 0, 0⟩
  | remaining + 1, attempt =>
    match o url attempt with
    | .ok pg => ⟨some pg, 1, 0⟩
    | .httpError _ =>
      let r := fetchGo o url retries remaining (attempt + 1)
      ⟨r.result, r.attempts + 1, r.sleepUnits⟩
    | .transportError =>
      let r := fetchGo o url retries remaining (attempt + 1)
      ⟨r.result, r.attempts + 1, r.sleepUnits + (if attempt < retries - 1 then 2 else 0)⟩

/-- `_fetch(url)` with the default `retries=3` (the only way the indexers
call it). -/
def pyFetch (o : Oracle) (url : String) : FetchRun := fetchGo o url 3 3 0

/-- Number of transport-error attempts among attempts `0, …, k-1`. -/
def countTransport (o : Oracle) (url : String) : Nat → Nat
  | 0 => 0
  | k + 1 => countTransport o url k + (if o url k = .transportError then 1 else 0)

/-! ## Run-twice definitions, parametric in the fixture site -/

/-- First movies run on an arbitrary unchanged fixture site, from a fresh
save file. -/
def mRunOnce (site : Site) : St × Option PyErr := moviesCreateIndex site none

/-- Second movies run, loading the document persisted by the first. -/
def mRunTwice (site : Site) : St × Option PyErr :=
  moviesCreateIndex site (some (mRunOnce site).1.doc)

/-- The load result of a fresh movies run. -/
def mLoad : Catalog × List String := load_progress none

/-- The mirror slice traversed by a fresh movies run. -/
def mSliceStart : List Nat := sliceFrom working_index (startIndex mLoad.1)

/-- The traversal state at the end of a fresh movies run, before the
checkpoint pop and final save. -/
def mTraverse (site : Site) : St := mirrorsLoop site mSliceStart ⟨mLoad.1, mLoad.2, []⟩

/-- The document persisted at the end of a fresh movies run. -/
def mFinalDoc (site : Site) : Catalog :=
  { (mTraverse site).doc with last_processed := none }

/-! # Theorems -/

/-! ## Substring helper lemmas -/

theorem infixB_iff (p : List Char) : ∀ l, infixB p l = true ↔ p <:+: l := by
  intro l
  induction l with
  | nil => simp [infixB, List.isPrefixOf_iff_prefix]
  | cons c rest ih =>
    simp [infixB, Bool.or_eq_true, List.isPrefixOf_iff_prefix, ih, ← List.infix_cons_iff]

theorem pyContains_NF_upper {s : String} (h : pyContains s "NF." = true) :
    pyContains (pyUpper s) "NF." = true := by
  rw [pyContains, infixB_iff] at h ⊢
  have h2 := List.IsInfix.map Char.toUpper h
  have h3 : ("NF.".data.map Char.toUpper) = "NF.".data := by decide
  rw [h3] at h2
  exact h2

theorem pyContains_trans_NF {s : String} (h : pyContains s ".NF." = true) :
    pyContains s "NF." = true := by
  rw [pyContains, infixB_iff] at h ⊢
  exact List.IsInfix.trans ((infixB_iff _ _).mp (by decide)) h

/-! ## Claim C5 -/

/-- **C5** (code bug): the claim states that a fetch failure at any node is
handled locally and never raises out of `create_index`.  The movies
indexer checks every fetch result, but `SeriesIndexer.create_index`
fetches the year page (line 209) and immediately calls
`soup.find_all("a")` without a `None` check: on the fixture `siteS2`,
where the year-page fetch fails, the run raises `AttributeError`
(`'NoneType' object has no attribute 'find_all'`) instead of skipping the
node and continuing with its siblings. -/
theorem c5_series_year_fetch_raises :
    (seriesCreateIndex siteS2 none 40).2 = some PyErr.attributeError := by rfl

/-! ## Claim C6 -/

/-- **C6** (counterexample): for a target that always answers a delivered
non-2xx status, `_fetch` makes its 3 attempts and returns `Failure`, but
sleeps 0 time-units in total — not the `2 * 2` units the claim requires
for the two failed non-final attempts.  The backoff `sleep(2)` sits in the
`except RequestException` branch only, so a non-2xx response retries
immediately. -/
theorem c6_counterexample :
    (pyFetch (fun _ _ => FetchAttempt.httpError 500) "url").attempts = 3 ∧
    (pyFetch (fun _ _ => FetchAttempt.httpError 500) "url").result = none ∧
    (pyFetch (fun _ _ => FetchAttempt.httpError 500) "url").sleepUnits ≠ 2 * 2 := by
  refine ⟨rfl, rfl, ?_⟩
  decide

/-- **C6** (amended): `_fetch` issues at most 3 GET attempts; the total
backoff slept equals 2 time-units for each *transport-error* attempt that
is not the last attempt made (a non-2xx status retries immediately, with
no sleep); and when all 3 attempts fail it returns `Failure` (`None`)
after exactly 3 attempts, without raising. -/
theorem c6_fetch_discipline (o : Oracle) (url : String) :
    (pyFetch o url).attempts ≤ 3 ∧
    (pyFetch o url).sleepUnits = 2 * countTransport o url ((pyFetch o url).attempts - 1) ∧
    ((∀ i, i < 3 → isOkA (o url i) = false) →
      (pyFetch o url).result = none ∧ (pyFetch o url).attempts = 3) := by
  refine ⟨?_, ?_, ?_⟩
  · rcases h0 : o url 0 with p0 | s0 | _ <;>
      rcases h1 : o url 1 with p1 | s1 | _ <;>
        rcases h2 : o url 2 with p2 | s2 | _ <;>
          simp [pyFetch, fetchGo, h0, h1, h2]
  · rcases h0 : o url 0 with p0 | s0 | _ <;>
      rcases h1 : o url 1 with p1 | s1 | _ <;>
        rcases h2 : o url 2 with p2 | s2 | _ <;>
          simp [pyFetch, fetchGo, h0, h1, h2, countTransport]
  · intro hall
    have k0 := hall 0 (by omega)
    have k1 := hall 1 (by omega)
    have k2 := hall 2 (by omega)
    rcases h0 : o url 0 with p0 | s0 | _ <;>
      rcases h1 : o url 1 with p1 | s1 | _ <;>
        rcases h2 : o url 2 with p2 | s2 | _ <;>
          rw [h0] at k0 <;> rw [h1] at k1 <;> rw [h2] at k2 <;>
            simp [isOkA] at k0 k1 k2 <;>
              constructor <;> simp [pyFetch, fetchGo, h0, h1, h2]

theorem c6_fetch_discipline_witness :
    (pyFetch (fun _ _ => FetchAttempt.transportError) "u").result = none ∧
    (pyFetch (fun _ _ => FetchAttempt.transportError) "u").attempts = 3 :=
  (c6_fetch_discipline (fun _ _ => FetchAttempt.transportError) "u").2.2 (by decide)

/-! ## Claim C7 -/

/-- **C7** (counterexample): on the claimed URL the path-based extractor
does not return the name `"Example Movie Name"`. -/
theorem c7_counterexample :
    extract_movie_info ".../Movie/2016/Example.Movie.Name.1080p.BluRay.mkv" ≠
      ("2016", "Example Movie Name") := by decide

/-- **C7** (amended): for the URL
`".../Movie/2016/Example.Movie.Name.1080p.BluRay.mkv"` the extractor
returns year `"2016"` and name `"Example Movie Name   mkv"`: the file
extension `mkv` is not in the denylist and survives, and removing the
`1080p` and `BluRay` tokens leaves interior double spaces because
`strip()` trims only the ends of the string. -/
theorem c7_extract_vector :
    extract_movie_info ".../Movie/2016/Example.Movie.Name.1080p.BluRay.mkv" =
      ("2016", "Example Movie Name   mkv") := by rfl

/-! ## Claim C8 -/

/-- **C8** (confirmed): the overrides of `_extract_quality` take
precedence.  Whenever the uppercased concatenation of URL and filename
contains `"HEVC"`, the returned codec is `"HEVC"` regardless of the
ordered-list scan; whenever the input contains `"NF."` or `".NF."`, the
returned source is `"NF"`.  Both overrides run after the ordered scans
(`extract_quality` is the scan result post-composed with
`applyOverrides`, see the C9 theorem). -/
theorem c8_overrides (url filename : String) :
    (pyContains (pyUpper (url ++ " " ++ filename)) "HEVC" = true →
      (extract_quality url filename).codec = "HEVC") ∧
    ((pyContains (url ++ " " ++ filename) "NF." = true ∨
      pyContains (url ++ " " ++ filename) ".NF." = true) →
      (extract_quality url filename).source = "NF") := by
  constructor
  · intro h
    have hs : pyContains (searchText url filename) "HEVC" = true := h
    show (applyOverrides url filename (scanQuality url filename)).codec = "HEVC"
    unfold applyOverrides
    simp only [hs, if_true]
    split <;> rfl
  · intro h
    have hnf : pyContains (searchText url filename) "NF." = true := by
      rcases h with h | h
      · exact pyContains_NF_upper h
      · exact pyContains_NF_upper (pyContains_trans_NF h)
    show (applyOverrides url filename (scanQuality url filename)).source = "NF"
    unfold applyOverrides
    simp only [hnf, Bool.true_or, if_true]

theorem c8_overrides_witness :
    (extract_quality "Movie.2016.x264.HEVC.mkv" "f").codec = "HEVC" ∧
    (extract_quality "Show.NF.WEB-DL.mkv" "f").source = "NF" :=
  ⟨(c8_overrides "Movie.2016.x264.HEVC.mkv" "f").1 (by decide),
   (c8_overrides "Show.NF.WEB-DL.mkv" "f").2 (Or.inl (by decide))⟩

/-! ## Claim C9 -/

/-- **C9** (confirmed): on the vector
`"Movie.2016.1080p.BluRay.x264-GROUP.mkv"` (as both URL and filename)
`_extract_quality` returns exactly resolution `"1080p"`, codec `"x264"`,
source `"BluRay"`, bit depth `"unknown"`; and in general the result is
the four independent first-match-with-`"unknown"`-default ordered scans,
post-composed with the two overrides. -/
theorem c9_quality_vector :
    (extract_quality "Movie.2016.1080p.BluRay.x264-GROUP.mkv"
        "Movie.2016.1080p.BluRay.x264-GROUP.mkv" =
      { resolution := "1080p", codec := "x264", source := "BluRay",
        bit_depth := "unknown" }) ∧
    ∀ url filename,
      extract_quality url filename =
        applyOverrides url filename
          { resolution := (scanFirst (searchText url filename) resolutions).getD "unknown"
            codec := (scanFirst (searchText url filename) codecs).getD "unknown"
            source := (scanFirst (searchText url filename) sources).getD "unknown"
            bit_depth :=
              ((scanFirst (searchText url filename) bit_depths).map pyLower).getD "unknown" } :=
  ⟨by rfl, fun _ _ => rfl⟩

/-! ## Counterexamples for C1, C2, C3, C4 -/

/-- **C1** (counterexample): the run-twice property fails.  (i) For the
series indexer on the unchanged fixture `siteS1`, the catalog persisted
by the second run differs from the first run's: `_recursive_fetch`
records a leaf with no check against `processed_urls`, so the second run
re-appends every leaf URL to the existing item's `content`.  (ii) For the
movies indexer on the unchanged fixture `siteM1`, the second run fetches
`"https://dl2.sermoviedown.pw/a/yb/m"`, a URL recorded in the catalog it
loaded: category/year listing fetches are unconditional, and that URL
doubles as a recorded movie URL. -/
theorem c1_counterexample :
    seriesRun2.1.doc.buckets ≠ seriesRun1.1.doc.buckets ∧
    Ev.fetchPage "https://dl2.sermoviedown.pw/a/yb/m" ∈ moviesRun2.1.events ∧
    "https://dl2.sermoviedown.pw/a/yb/m" ∈ docUrlList moviesDisk1.buckets := by
  refine ⟨by decide, by decide, by decide⟩

/-- **C2** (counterexample): the deduplication invariant fails for the
series indexer.  On `siteS1`, whose series page links the same leaf file
twice, a single fresh run reaches a catalog in which an item's `content`
list contains the same URL twice: the leaf branch of `_recursive_fetch`
records `full_url` without checking the Processed-URL set (it only adds
to it afterwards), so a URL already in the set is recorded again. -/
theorem c2_counterexample :
    seriesRun1.2 = none ∧ contentDupFree seriesRun1.1.doc.buckets = false := by
  exact ⟨rfl, rfl⟩

/-- **C3** (counterexample): persist-per-item fails for the series
indexer.  On `siteS1` the run's event log accepts the new item and then
continues traversal (fetching the `Extras/` subdirectory) with no
intervening save: `_recursive_fetch` never saves, `_process_series` saves
only once after the whole recursive traversal, and no checkpoint pointer
is ever updated. -/
theorem c3_counterexample : c3ok seriesRun1.1.events = false := by rfl

/-- **C4** (counterexample): checkpoint clearing fails for the series
indexer.  On `siteS1` the run completes over all configured mirrors
without aborting, yet the last document written to disk still contains
`last_processed = {"index": 2, "series": 0}`: `create_index` pops the
checkpoint only from the in-memory document and never saves afterwards
(the movies indexer saves after the pop; the series indexer does not). -/
theorem c4_counterexample :
    seriesRun1.2 = none ∧
    lastSavedDoc seriesRun1.1.events = some seriesDisk1 ∧
    seriesDisk1.last_processed = some ⟨2, Cursor.num 0⟩ := by
  refine ⟨rfl, by decide, rfl⟩

/-! ## Claim C10: series items never store the extracted year/name -/

theorem itemsBlank_append {a b : List Item} (ha : itemsBlank a = true)
    (hb : itemsBlank b = true) : itemsBlank (a ++ b) = true := by
  induction a with
  | nil => simpa using hb
  | cons it rest ih =>
    simp only [itemsBlank, Bool.and_eq_true] at ha
    simp only [List.cons_append, itemsBlank, Bool.and_eq_true]
    exact ⟨ha.1, ih ha.2⟩

theorem updateItems_blank {title fu : String} {qd : QualityDetail} :
    ∀ {its its2 : List Item}, updateItems title fu qd its = some its2 →
      itemsBlank its = true → itemsBlank its2 = true := by
  intro its
  induction its with
  | nil => intro its2 h; simp [updateItems] at h
  | cons it rest ih =>
    intro its2 h hb
    simp only [itemsBlank, Bool.and_eq_true] at hb
    rw [updateItems] at h
    by_cases ht : (it.title == title) = true
    · rw [if_pos ht] at h
      cases h
      simp only [itemsBlank, Bool.and_eq_true]
      exact ⟨hb.1, hb.2⟩
    · rw [if_neg ht] at h
      rcases Option.map_eq_some'.mp h with ⟨r2, hr2, rfl⟩
      simp only [itemsBlank, Bool.and_eq_true]
      exact ⟨hb.1, ih hr2 hb.2⟩

theorem seriesItemAdd_blank (key title iurl fu : String) (qd : QualityDetail) :
    ∀ bs, itemsBlankExtra bs = true →
      itemsBlankExtra (seriesItemAdd key title iurl fu qd bs) = true := by
  intro bs
  induction bs with
  | nil => intro _; simp [seriesItemAdd, itemsBlankExtra, itemsBlank]
  | cons b rest ih =>
    intro hb
    rcases b with ⟨k, its⟩
    simp only [itemsBlankExtra, Bool.and_eq_true] at hb
    rw [seriesItemAdd]
    by_cases hk : (k == key) = true
    · rw [if_pos hk]
      cases hup : updateItems title fu qd its with
      | some its2 =>
        simp only [itemsBlankExtra, Bool.and_eq_true]
        exact ⟨updateItems_blank hup hb.1, hb.2⟩
      | none =>
        simp only [itemsBlankExtra, Bool.and_eq_true]
        exact ⟨itemsBlank_append hb.1 (by simp [itemsBlank]), hb.2⟩
    · rw [if_neg hk]
      simp only [itemsBlankExtra, Bool.and_eq_true]
      exact ⟨hb.1, ih hb.2⟩

theorem linkLoop_blank (b c yt sn : String) :
    ∀ (tags : List Tag) (st : St) (pushes : List String),
      itemsBlankExtra st.doc.buckets = true →
      itemsBlankExtra (linkLoop b c yt sn tags st pushes).1.doc.buckets = true := by
  intro tags
  induction tags with
  | nil => intro st pushes h; simpa [linkLoop] using h
  | cons l ls ih =>
    intro st pushes h
    by_cases ht : truthy l.title = true
    · by_cases hl : (pyEndsWith l.href "mkv" || pyEndsWith l.href "mp4") = true
      · simp only [linkLoop, ht, hl, Bool.not_true, Bool.false_eq_true, if_false, if_true]
        exact ih _ _ (seriesItemAdd_blank _ _ _ _ _ _ h)
      · simp only [linkLoop, ht, Bool.not_true, Bool.false_eq_true, if_false]
        rw [if_neg (by simp [hl] : ¬ _)]
        exact ih _ _ h
    · simp only [linkLoop, ht]
      rw [if_pos (by simp [ht] : _)]
      exact ih _ _ h

theorem recFetch_blank (site : Site) (b yt y sn : String) :
    ∀ (fuel : Nat) (stack visited : List String) (st : St),
      itemsBlankExtra st.doc.buckets = true →
      itemsBlankExtra (recFetch site b yt y sn fuel stack visited st).doc.buckets = true := by
  intro fuel
  induction fuel with
  | zero => intro stack visited st h; simpa [recFetch] using h
  | succ n ih =>
    intro stack visited st h
    cases stack with
    | nil => simpa [recFetch] using h
    | cons cur rest =>
      by_cases hv : (cur ∈ visited ∨ cur ∈ st.processed)
      · simp only [recFetch]
        rw [if_pos (by simp [hv])]
        exact ih _ _ _ h
      · simp only [recFetch]
        rw [if_neg (by simp at hv ⊢; exact hv)]
        rcases hsite : site cur with _ | links <;> simp only [hsite]
        · exact ih _ _ _ h
        · exact ih _ _ _ (linkLoop_blank _ _ _ _ _ _ _ h)

theorem process_series_blank (site : Site) (fuel : Nat) (su : String) (st : St)
    (h : itemsBlankExtra st.doc.buckets = true) :
    itemsBlankExtra (process_series site fuel su st).doc.buckets = true := by
  rw [process_series]
  by_cases hp : su ∈ st.processed
  · rw [if_pos hp]; exact h
  · rw [if_neg hp]
    rcases hsite : site su with _ | pg <;> simp only [hsite]
    · exact h
    · exact recFetch_blank site _ _ _ _ _ _ _ _ h

theorem seriesListLoop_blank (site : Site) (fuel : Nat) (yu : String) :
    ∀ (tags : List Tag) (st : St), itemsBlankExtra st.doc.buckets = true →
      itemsBlankExtra (seriesListLoop site fuel yu tags st).doc.buckets = true := by
  intro tags
  induction tags with
  | nil => intro st h; simpa [seriesListLoop] using h
  | cons l ls ih =>
    intro st h
    by_cases ht : truthy l.title = true
    · simp only [seriesListLoop, ht, Bool.not_true, Bool.false_eq_true, if_false]
      exact ih _ (process_series_blank site fuel _ _ h)
    · simp only [seriesListLoop, ht]
      rw [if_pos (by simp [ht] : _)]
      exact ih _ h

theorem seriesYearLoop_blank (site : Site) (fuel : Nat) (url : String) :
    ∀ (tags : List Tag) (st : St), itemsBlankExtra st.doc.buckets = true →
      itemsBlankExtra (seriesYearLoop site fuel url tags st).1.doc.buckets = true := by
  intro tags
  induction tags with
  | nil => intro st h; simpa [seriesYearLoop] using h
  | cons l ls ih =>
    intro st h
    by_cases ht : truthy l.title = true
    · simp only [seriesYearLoop, ht, Bool.not_true, Bool.false_eq_true, if_false]
      rcases hsite : site (url ++ "/" ++ l.href) with _ | pg <;> simp only [hsite]
      · exact h
      · exact ih _ (seriesListLoop_blank site fuel _ _ _ h)
    · simp only [seriesYearLoop, ht]
      rw [if_pos (by simp [ht] : _)]
      exact ih _ h

theorem seriesMirrors_blank (site : Site) (fuel : Nat) :
    ∀ (idxs : List Nat) (st : St), itemsBlankExtra st.doc.buckets = true →
      itemsBlankExtra (seriesMirrors site fuel idxs st).1.doc.buckets = true := by
  intro idxs
  induction idxs with
  | nil => intro st h; simpa [seriesMirrors] using h
  | cons i rest ih =>
    intro st h
    rcases hsite : site (seriesMirrorUrl i) with _ | links <;>
      simp only [seriesMirrors, hsite]
    · exact ih _ h
    · have h2 := seriesYearLoop_blank site fuel (seriesMirrorUrl i) links
        (logEv st (.fetchPage (seriesMirrorUrl i))) h
      rcases hy : seriesYearLoop site fuel (seriesMirrorUrl i) links
          (logEv st (.fetchPage (seriesMirrorUrl i))) with ⟨st2, e⟩
      rw [hy] at h2
      cases e with
      | none => exact ih _ h2
      | some err => exact h2

/-- **C10** (confirmed): every item ever created by the series indexer
stores the empty string in `extra_info["extracted_name"]` and
`extra_info["extracted_year"]` (the record literal in `_recursive_fetch`
hard-codes `""`), for every fixture site and any traversal bound;  the
values computed by `_extract_series_info` are used only for the item's
`title` and for the grouping key: on `siteS1` the extractor computes
`("2016", "Example Show", "")` for the series URL, and the resulting
catalog holds the item under bucket `"2016"` with title `"Example Show"`
and empty extracted fields. -/
theorem c10_series_blank_extra :
    (∀ site fuel, itemsBlankExtra (seriesCreateIndex site none fuel).1.doc.buckets = true) ∧
    extract_series_info "https://dl2.sermoviedown.pw/Series/2016/Example.Show.2016.1080p/" =
      ("2016", "Example Show", "") ∧
    (seriesRun1.1.doc.buckets.headD ("", [])).1 = "2016" ∧
    (seriesRun1.1.doc.buckets.headD ("", [])).2.map Item.title = ["Example Show"] ∧
    (seriesRun1.1.doc.buckets.headD ("", [])).2.map Item.extracted_name = [""] ∧
    (seriesRun1.1.doc.buckets.headD ("", [])).2.map Item.extracted_year = [""] := by
  refine ⟨?_, by rfl, by rfl, by rfl, by rfl, by rfl⟩
  intro site fuel
  rw [seriesCreateIndex]
  have h0 : itemsBlankExtra (load_progress none).1.buckets = true := rfl
  by_cases hs : startIndex (load_progress none).1 ∈ working_index
  · rw [if_pos hs]
    have h2 := seriesMirrors_blank site fuel (sliceFrom working_index (startIndex (load_progress none).1))
      ⟨(load_progress none).1, (load_progress none).2, []⟩ h0
    cases hy : seriesMirrors site fuel (sliceFrom working_index (startIndex (load_progress none).1))
        ⟨(load_progress none).1, (load_progress none).2, []⟩ with
    | mk st2 e =>
      rw [hy] at h2
      cases e with
      | none => exact h2
      | some err => exact h2
  · rw [if_neg hs]
    exact h0

/-! ## Claim C4: the movies indexer clears the checkpoint on completion -/

theorem lastSavedDoc_append_save (l : List Ev) (d : Catalog) :
    lastSavedDoc (l ++ [Ev.save d]) = some d := by
  induction l with
  | nil => rfl
  | cons e rest ih => simp [lastSavedDoc, ih]

/-- **C4** (amended): for every fixture site and every starting document
whose checkpoint points into the configured mirror list (as every
document produced by the indexer does), `MoviesIndexer.create_index`
completes without error and the last document written to disk carries no
`last_processed` field.  (The series indexer does not satisfy the claim,
see the counterexample: it pops the checkpoint in memory but never saves
afterwards.) -/
theorem c4_movies_checkpoint_cleared (site : Site) (disk : Option Catalog)
    (h : startIndex (load_progress disk).1 ∈ working_index) :
    (moviesCreateIndex site disk).2 = none ∧
    ∃ d, lastSavedDoc (moviesCreateIndex site disk).1.events = some d ∧
      d.last_processed = none := by
  simp only [moviesCreateIndex, if_pos h]
  exact ⟨by trivial, _, lastSavedDoc_append_save _ _, rfl⟩

theorem c4_movies_checkpoint_cleared_witness :
    (moviesCreateIndex siteM1 none).2 = none ∧
    ∃ d, lastSavedDoc (moviesCreateIndex siteM1 none).1.events = some d ∧
      d.last_processed = none :=
  c4_movies_checkpoint_cleared siteM1 none (by decide)

/-! ## Claim C3: the movies indexer persists after every accepted item -/

theorem goodLog_append {a b : List Ev}
    (ha : List.foldl c3step (some none) a = some none)
    (hb : List.foldl c3step (some none) b = some none) :
    List.foldl c3step (some none) (a ++ b) = some none := by
  rw [List.foldl_append, ha]; exact hb

theorem itemsHaveUrl_append (u : String) (a b : List Item) :
    itemsHaveUrl u (a ++ b) = (itemsHaveUrl u a || itemsHaveUrl u b) := by
  induction a with
  | nil => simp [itemsHaveUrl]
  | cons it rest ih => simp [itemsHaveUrl, ih, Bool.or_assoc]

theorem bucketAppend_hasUrl (key : String) (it : Item) :
    ∀ bs, docHasItemUrl (bucketAppend bs key it) it.url = true := by
  intro bs
  induction bs with
  | nil => simp [bucketAppend, docHasItemUrl, itemsHaveUrl]
  | cons b rest ih =>
    rcases b with ⟨k, its⟩
    rw [bucketAppend]
    by_cases hk : (k == key) = true
    · rw [if_pos hk]
      simp [docHasItemUrl, itemsHaveUrl_append, itemsHaveUrl]
    · rw [if_neg hk]
      simp [docHasItemUrl, ih]

theorem pm_goodLog (site : Site) (yu yt : String) (tag : Tag) (idx : Nat) (st : St)
    (h : List.foldl c3step (some none) st.events = some none) :
    List.foldl c3step (some none)
      (process_movie site yu tag yt idx st).events = some none := by
  rw [process_movie]
  rcases htag : tag.title with _ | title <;> simp only [htag]
  case none => exact h
  case some =>
    by_cases hp : (yu ++ tag.href) ∈ st.processed
    · rw [if_pos hp]; exact h
    · rw [if_neg hp]
      have h1 : List.foldl c3step (some none)
          (logEv st (.fetchMovie (yu ++ tag.href))).events = some none := by
        rw [logEv]
        exact goodLog_append h rfl
      rcases hsite : site (yu ++ tag.href) with _ | links <;> simp only [hsite]
      · exact h1
      · rcases hres : (contentLoop (yu ++ tag.href) links
            (logEv st (.fetchMovie (yu ++ tag.href))).processed).1 with _ | ⟨cu, cus⟩ <;>
          simp only [hres]
        · exact h1
        · refine goodLog_append h1 ?_
          simp only [List.foldl, c3step, cursorIs]
          rw [bucketAppend_hasUrl]
          simp

theorem yearMovies_goodLog (site : Site) (yu yt : String) (idx : Nat) :
    ∀ (tags : List Tag) (st : St),
      List.foldl c3step (some none) st.events = some none →
      List.foldl c3step (some none) (yearMovies site yu yt idx tags st).events = some none := by
  intro tags
  induction tags with
  | nil => intro st h; simpa [yearMovies] using h
  | cons t ts ih =>
    intro st h
    rw [yearMovies]
    exact ih _ (pm_goodLog site yu yt t idx st h)

theorem yearsLoop_goodLog (site : Site) (mp : String) (idx : Nat) :
    ∀ (tags : List Tag) (st : St),
      List.foldl c3step (some none) st.events = some none →
      List.foldl c3step (some none) (yearsLoop site mp idx tags st).events = some none := by
  intro tags
  induction tags with
  | nil => intro st h; simpa [yearsLoop] using h
  | cons y ys ih =>
    intro st h
    rw [yearsLoop]
    rcases hty : y.title with _ | ytitle <;> simp only [hty]
    case none => exact ih _ h
    case some =>
      by_cases hy : (ytitle == "") = true
      · rw [if_pos hy]; exact ih _ h
      · rw [if_neg hy]
        have h1 : List.foldl c3step (some none)
            (logEv st (.fetchPage (mp ++ y.href))).events = some none := by
          rw [logEv]; exact goodLog_append h rfl
        rcases hsite : site (mp ++ y.href) with _ | pg <;> simp only [hsite]
        · exact ih _ h1
        · exact ih _ (yearMovies_goodLog site _ _ idx pg _ h1)

theorem categoryLoop_goodLog (site : Site) (url : String) (idx : Nat) :
    ∀ (tags : List Tag) (st : St),
      List.foldl c3step (some none) st.events = some none →
      List.foldl c3step (some none) (categoryLoop site url idx tags st).events = some none := by
  intro tags
  induction tags with
  | nil => intro st h; simpa [categoryLoop] using h
  | cons l ls ih =>
    intro st h
    rw [categoryLoop]
    rcases htl : l.title with _ | t <;> simp only [htl]
    case none => exact ih _ h
    case some =>
      by_cases hskip : (t == "" || !pyContains (pyLower t) "movie") = true
      · rw [if_pos hskip]; exact ih _ h
      · rw [if_neg hskip]
        have h1 : List.foldl c3step (some none)
            (logEv st (.fetchPage (url ++ l.href))).events = some none := by
          rw [logEv]; exact goodLog_append h rfl
        rcases hsite : site (url ++ l.href) with _ | pg <;> simp only [hsite]
        · exact ih _ h1
        · exact ih _ (yearsLoop_goodLog site _ idx pg _ h1)

theorem mirrorsLoop_goodLog (site : Site) :
    ∀ (idxs : List Nat) (st : St),
      List.foldl c3step (some none) st.events = some none →
      List.foldl c3step (some none) (mirrorsLoop site idxs st).events = some none := by
  intro idxs
  induction idxs with
  | nil => intro st h; simpa [mirrorsLoop] using h
  | cons i rest ih =>
    intro st h
    have h1 : List.foldl c3step (some none)
        (logEv st (.fetchPage (mirrorUrl i))).events = some none := by
      rw [logEv]; exact goodLog_append h rfl
    rcases hsite : site (mirrorUrl i) with _ | pg <;> simp only [mirrorsLoop, hsite]
    · exact ih _ h1
    · exact ih _ (categoryLoop_goodLog site _ i pg _ h1)

/-- **C3** (amended, movies part): in every run of
`MoviesIndexer.create_index`, on any fixture site and from any starting
document, the event log satisfies the persist-per-item discipline: every
acceptance of an item is immediately followed by a `_save_progress` of a
document that contains the accepted item and whose
`last_processed` cursor is the accepted movie URL, before any further
fetch.  (The series indexer violates the claim, see the counterexample.) -/
theorem c3_movies_persist_per_item (site : Site) (disk : Option Catalog) :
    c3ok (moviesCreateIndex site disk).1.events = true := by
  rw [moviesCreateIndex]
  by_cases h : startIndex (load_progress disk).1 ∈ working_index
  · simp only [if_pos h]
    have h2 := mirrorsLoop_goodLog site
      (sliceFrom working_index (startIndex (load_progress disk).1))
      ⟨(load_progress disk).1, (load_progress disk).2, []⟩ rfl
    rw [c3ok, c3run]
    have hsave : ∀ d : Catalog, List.foldl c3step (some none) [Ev.save d] = some none :=
      fun _ => rfl
    rw [goodLog_append h2 (hsave _)]
    rfl
  · simp only [if_neg h]
    rfl

/-! ## Claim C2: deduplication in the movies indexer -/

theorem ends_nonempty {s : String}
    (hh : (pyEndsWith s "mkv" || pyEndsWith s "mp4") = true) : s.data ≠ [] := by
  intro hd
  have hh2 : pyEndsWith s "mkv" = true ∨ pyEndsWith s "mp4" = true := by simpa using hh
  rcases hh2 with h | h <;>
    · rw [pyEndsWith, hd] at h
      simp [List.isSuffixOf_iff_suffix] at h

theorem append_ne_of_ends (mu : String) {h : String}
    (hh : (pyEndsWith h "mkv" || pyEndsWith h "mp4") = true) : mu ++ h ≠ mu := by
  intro contra
  have hlen := congrArg String.length contra
  rw [String.length_append] at hlen
  have : h.length = 0 := by omega
  exact ends_nonempty hh (List.length_eq_zero.mp this)

theorem contentLoop_spec (mu : String) :
    ∀ (tags : List Tag) (p : List String),
      (contentLoop mu tags p).2.2 = p ++ (contentLoop mu tags p).1 ∧
      (contentLoop mu tags p).1.Nodup ∧
      (∀ c ∈ (contentLoop mu tags p).1, c ∉ p ∧
        ∃ t, t ∈ tags ∧ c = mu ++ t.href ∧
          (pyEndsWith t.href "mkv" || pyEndsWith t.href "mp4") = true) := by
  intro tags
  induction tags with
  | nil => intro p; simp [contentLoop]
  | cons t ts ih =>
    intro p
    by_cases hq : (truthy t.title && (pyEndsWith t.href "mkv" || pyEndsWith t.href "mp4")) = true
    · by_cases hm : (mu ++ t.href) ∈ p
      · rw [contentLoop, if_pos hq, if_pos hm]
        refine ⟨(ih p).1, (ih p).2.1, fun c hc => ?_⟩
        rcases (ih p).2.2 c hc with ⟨hcp, t2, ht2, rfl, he⟩
        exact ⟨hcp, t2, List.mem_cons_of_mem _ ht2, rfl, he⟩
      · rw [contentLoop, if_pos hq, if_neg hm]
        have haddU : addUrl p (mu ++ t.href) = p ++ [mu ++ t.href] := by
          rw [addUrl, if_neg hm]
        rcases ih (addUrl p (mu ++ t.href)) with ⟨h1, h2, h3⟩
        rw [haddU]
        rw [haddU] at h1 h2 h3
        refine ⟨?_, ?_, ?_⟩
        · rw [h1, List.append_assoc, List.singleton_append]
        · refine List.nodup_cons.mpr ⟨fun hin => ?_, h2⟩
          exact (h3 _ hin).1 (List.mem_append_right _ (List.mem_singleton_self _))
        · intro c hc
          rcases List.mem_cons.mp hc with rfl | hc2
          · have hqq : truthy t.title = true ∧
                (pyEndsWith t.href "mkv" || pyEndsWith t.href "mp4") = true := by
              simpa using hq
            exact ⟨hm, t, List.mem_cons_self _ _, rfl, hqq.2⟩
          · rcases h3 c hc2 with ⟨hcp, t2, ht2, rfl, he⟩
            exact ⟨fun hp2 => hcp (List.mem_append_left _ hp2), t2,
              List.mem_cons_of_mem _ ht2, rfl, he⟩
    · rw [contentLoop, if_neg hq]
      refine ⟨(ih p).1, (ih p).2.1, fun c hc => ?_⟩
      rcases (ih p).2.2 c hc with ⟨hcp, t2, ht2, rfl, he⟩
      exact ⟨hcp, t2, List.mem_cons_of_mem _ ht2, rfl, he⟩

theorem itemsUrls_append (a b : List Item) :
    itemsUrls (a ++ b) = itemsUrls a ++ itemsUrls b := by
  induction a with
  | nil => simp [itemsUrls]
  | cons it rest ih => simp [itemsUrls, ih]

theorem docUrlList_bucketAppend (key : String) (it : Item) :
    ∀ bs, (docUrlList (bucketAppend bs key it)).Perm (docUrlList bs ++ itemUrls it) := by
  intro bs
  induction bs with
  | nil =>
    simp [bucketAppend, docUrlList, itemsUrls]
  | cons b rest ih =>
    rcases b with ⟨k, its⟩
    rw [bucketAppend]
    by_cases hk : (k == key) = true
    · rw [if_pos hk]
      simp only [docUrlList, itemsUrls_append, itemsUrls, List.append_nil, List.append_assoc]
      exact List.Perm.append_left _ (List.perm_append_comm)
    · rw [if_neg hk]
      simp only [docUrlList, List.append_assoc]
      exact List.Perm.append_left _ ih

theorem itemUrls_sublist_itemsUrls {it : Item} :
    ∀ {its : List Item}, it ∈ its → List.Sublist (itemUrls it) (itemsUrls its) := by
  intro its
  induction its with
  | nil => intro h; cases h
  | cons it2 rest ih =>
    intro h
    rcases List.mem_cons.mp h with rfl | h2
    · exact List.sublist_append_left _ _
    · exact (ih h2).trans (List.sublist_append_right _ _)

theorem itemsUrls_sublist_doc {k : String} {its : List Item} :
    ∀ {bs : List (String × List Item)}, (k, its) ∈ bs →
      List.Sublist (itemsUrls its) (docUrlList bs) := by
  intro bs
  induction bs with
  | nil => intro h; cases h
  | cons b rest ih =>
    intro h
    rcases List.mem_cons.mp h with heq | h2
    · cases heq
      exact List.sublist_append_left _ _
    · exact (ih h2).trans (List.sublist_append_right _ _)

theorem mapUrl_sublist_itemsUrls :
    ∀ (its : List Item), List.Sublist (its.map Item.url) (itemsUrls its) := by
  intro its
  induction its with
  | nil => exact List.Sublist.refl _
  | cons it rest ih =>
    simp only [List.map_cons, itemsUrls]
    exact List.Sublist.cons₂ _ (ih.trans (List.sublist_append_right _ _))

theorem itemUrlsOnly_sublist :
    ∀ (bs : List (String × List Item)), List.Sublist (itemUrlsOnly bs) (docUrlList bs) := by
  intro bs
  induction bs with
  | nil => exact List.Sublist.refl _
  | cons b rest ih =>
    exact List.Sublist.append (mapUrl_sublist_itemsUrls _) ih

/-- A URL already in the Processed-URL set is neither fetched nor
recorded again by `_process_movie`: the call leaves the state untouched. -/
theorem pm_skip (site : Site) (yu yt : String) (tag : Tag) (idx : Nat) (st : St)
    (hp : (yu ++ tag.href) ∈ st.processed) :
    process_movie site yu tag yt idx st = st := by
  rw [process_movie]
  rcases htag : tag.title with _ | title
  · simp [htag]
  · simp only [htag]
    rw [if_pos hp]

theorem pm_inv (site : Site) (yu yt : String) (tag : Tag) (idx : Nat) (st : St)
    (hnd : (docUrlList st.doc.buckets).Nodup)
    (hiff : ∀ u, u ∈ st.processed ↔ u ∈ docUrlList st.doc.buckets) :
    (docUrlList (process_movie site yu tag yt idx st).doc.buckets).Nodup ∧
    (∀ u, u ∈ (process_movie site yu tag yt idx st).processed ↔
      u ∈ docUrlList (process_movie site yu tag yt idx st).doc.buckets) := by
  rw [process_movie]
  rcases htag : tag.title with _ | title
  · simp only [htag]; exact ⟨hnd, hiff⟩
  · simp only [htag]
    by_cases hp : (yu ++ tag.href) ∈ st.processed
    · rw [if_pos hp]; exact ⟨hnd, hiff⟩
    · rw [if_neg hp]
      rcases hsite : site (yu ++ tag.href) with _ | links <;> simp only [hsite, logEv]
      · exact ⟨hnd, hiff⟩
      · obtain ⟨hP, hN, hC⟩ := contentLoop_spec (yu ++ tag.href) links st.processed
        rcases hres : (contentLoop (yu ++ tag.href) links st.processed).1 with _ | ⟨cu, cus⟩ <;>
          simp only [hres]
        · rw [hres, List.append_nil] at hP
          exact ⟨hnd, by rw [hP]; exact hiff⟩
        · rw [hres] at hP hN hC
          have hmucus : (yu ++ tag.href) ∉ cu :: cus := by
            intro hin
            rcases hC _ hin with ⟨_, t2, _, heq, he⟩
            exact append_ne_of_ends (yu ++ tag.href) he heq.symm
          have hmu22 : (yu ++ tag.href) ∉ (contentLoop (yu ++ tag.href) links st.processed).2.2 := by
            rw [hP]
            intro hin
            rcases List.mem_append.mp hin with h | h
            · exact hp h
            · exact hmucus h
          have haddmu : addUrl (contentLoop (yu ++ tag.href) links st.processed).2.2 (yu ++ tag.href) =
              (contentLoop (yu ++ tag.href) links st.processed).2.2 ++ [yu ++ tag.href] := by
            rw [addUrl, if_neg hmu22]
          have hperm := docUrlList_bucketAppend (pyLower yt)
            ({ url := yu ++ tag.href, title := title, content := cu :: cus,
               extracted_year := (extract_movie_info (yu ++ tag.href)).1,
               extracted_name := (extract_movie_info (yu ++ tag.href)).2,
               quality_details := (contentLoop (yu ++ tag.href) links st.processed).2.1 } : Item)
            st.doc.buckets
          have hdisj : (docUrlList st.doc.buckets).Disjoint
              ((yu ++ tag.href) :: cu :: cus) := by
            intro a ha hin
            have hap : a ∈ st.processed := (hiff a).mpr ha
            rcases List.mem_cons.mp hin with rfl | hin2
            · exact hp hap
            · exact (hC _ hin2).1 hap
          have hlist : ((yu ++ tag.href) :: cu :: cus).Nodup :=
            List.nodup_cons.mpr ⟨hmucus, hN⟩
          constructor
          · rw [List.Perm.nodup_iff hperm]
            exact List.Nodup.append hnd hlist hdisj
          · intro u
            rw [List.Perm.mem_iff hperm, haddmu, hP]
            simp only [List.mem_append, List.mem_cons, itemUrls, List.mem_singleton, hiff u]
            tauto

theorem yearMovies_inv (site : Site) (yu yt : String) (idx : Nat) :
    ∀ (tags : List Tag) (st : St),
      (docUrlList st.doc.buckets).Nodup →
      (∀ u, u ∈ st.processed ↔ u ∈ docUrlList st.doc.buckets) →
      (docUrlList (yearMovies site yu yt idx tags st).doc.buckets).Nodup ∧
      (∀ u, u ∈ (yearMovies site yu yt idx tags st).processed ↔
        u ∈ docUrlList (yearMovies site yu yt idx tags st).doc.buckets) := by
  intro tags
  induction tags with
  | nil => intro st h1 h2; exact ⟨h1, h2⟩
  | cons t ts ih =>
    intro st h1 h2
    rw [yearMovies]
    rcases pm_inv site yu yt t idx st h1 h2 with ⟨h3, h4⟩
    exact ih _ h3 h4

theorem yearsLoop_inv (site : Site) (mp : String) (idx : Nat) :
    ∀ (tags : List Tag) (st : St),
      (docUrlList st.doc.buckets).Nodup →
      (∀ u, u ∈ st.processed ↔ u ∈ docUrlList st.doc.buckets) →
      (docUrlList (yearsLoop site mp idx tags st).doc.buckets).Nodup ∧
      (∀ u, u ∈ (yearsLoop site mp idx tags st).processed ↔
        u ∈ docUrlList (yearsLoop site mp idx tags st).doc.buckets) := by
  intro tags
  induction tags with
  | nil => intro st h1 h2; exact ⟨h1, h2⟩
  | cons y ys ih =>
    intro st h1 h2
    rw [yearsLoop]
    rcases hty : y.title with _ | ytitle <;> simp only [hty]
    case none => exact ih _ h1 h2
    case some =>
      by_cases hy : (ytitle == "") = true
      · rw [if_pos hy]; exact ih _ h1 h2
      · rw [if_neg hy]
        rcases hsite : site (mp ++ y.href) with _ | pg <;> simp only [hsite, logEv]
        · exact ih _ h1 h2
        · rcases yearMovies_inv site (mp ++ y.href) ytitle idx pg
            (logEv st (.fetchPage (mp ++ y.href))) h1 h2 with ⟨h3, h4⟩
          exact ih _ h3 h4

theorem categoryLoop_inv (site : Site) (url : String) (idx : Nat) :
    ∀ (tags : List Tag) (st : St),
      (docUrlList st.doc.buckets).Nodup →
      (∀ u, u ∈ st.processed ↔ u ∈ docUrlList st.doc.buckets) →
      (docUrlList (categoryLoop site url idx tags st).doc.buckets).Nodup ∧
      (∀ u, u ∈ (categoryLoop site url idx tags st).processed ↔
        u ∈ docUrlList (categoryLoop site url idx tags st).doc.buckets) := by
  intro tags
  induction tags with
  | nil => intro st h1 h2; exact ⟨h1, h2⟩
  | cons l ls ih =>
    intro st h1 h2
    rw [categoryLoop]
    rcases htl : l.title with _ | t <;> simp only [htl]
    case none => exact ih _ h1 h2
    case some =>
      by_cases hskip : (t == "" || !pyContains (pyLower t) "movie") = true
      · rw [if_pos hskip]; exact ih _ h1 h2
      · rw [if_neg hskip]
        rcases hsite : site (url ++ l.href) with _ | pg <;> simp only [hsite, logEv]
        · exact ih _ h1 h2
        · rcases yearsLoop_inv site (url ++ l.href) idx pg
            (logEv st (.fetchPage (url ++ l.href))) h1 h2 with ⟨h3, h4⟩
          exact ih _ h3 h4

theorem mirrorsLoop_inv (site : Site) :
    ∀ (idxs : List Nat) (st : St),
      (docUrlList st.doc.buckets).Nodup →
      (∀ u, u ∈ st.processed ↔ u ∈ docUrlList st.doc.buckets) →
      (docUrlList (mirrorsLoop site idxs st).doc.buckets).Nodup ∧
      (∀ u, u ∈ (mirrorsLoop site idxs st).processed ↔
        u ∈ docUrlList (mirrorsLoop site idxs st).doc.buckets) := by
  intro idxs
  induction idxs with
  | nil => intro st h1 h2; exact ⟨h1, h2⟩
  | cons i rest ih =>
    intro st h1 h2
    rcases hsite : site (mirrorUrl i) with _ | pg <;> simp only [mirrorsLoop, hsite, logEv]
    · exact ih _ h1 h2
    · rcases categoryLoop_inv site (mirrorUrl i) i pg
        (logEv st (.fetchPage (mirrorUrl i))) h1 h2 with ⟨h3, h4⟩
      exact ih _ h3 h4

theorem moviesCreateIndex_inv (site : Site) (disk : Option Catalog)
    (hnd : (docUrlList (load_progress disk).1.buckets).Nodup) :
    (docUrlList (moviesCreateIndex site disk).1.doc.buckets).Nodup ∧
    (∀ u, u ∈ (moviesCreateIndex site disk).1.processed ↔
      u ∈ docUrlList (moviesCreateIndex site disk).1.doc.buckets) := by
  rw [moviesCreateIndex]
  by_cases h : startIndex (load_progress disk).1 ∈ working_index
  · simp only [if_pos h]
    have hiff0 : ∀ u, u ∈ (load_progress disk).2 ↔
        u ∈ docUrlList (load_progress disk).1.buckets := by
      rcases disk with _ | d
      · intro u; exact Iff.rfl
      · intro u; exact Iff.rfl
    exact mirrorsLoop_inv site
      (sliceFrom working_index (startIndex (load_progress disk).1))
      ⟨(load_progress disk).1, (load_progress disk).2, []⟩ hnd hiff0
  · simp only [if_neg h]
    refine ⟨hnd, ?_⟩
    rcases disk with _ | d
    · intro u; exact Iff.rfl
    · intro u; exact Iff.rfl

/-- **C2** (amended, movies part): starting from any loaded document
whose URL multiset is duplicate-free (in particular from a fresh file),
every catalog state reached by `MoviesIndexer.create_index` has
duplicate-free `content` lists and a duplicate-free set of item `url`s;
and a URL already in the Processed-URL set is never fetched nor recorded
again (`_process_movie` returns with the state unchanged).  (The series
indexer re-records already-processed leaf URLs, see the counterexample.) -/
theorem c2_movies_dedup :
    (∀ (site : Site) (disk : Option Catalog),
      (docUrlList (load_progress disk).1.buckets).Nodup →
      (∀ k its it, (k, its) ∈ (moviesCreateIndex site disk).1.doc.buckets →
        it ∈ its → it.content.Nodup) ∧
      (itemUrlsOnly (moviesCreateIndex site disk).1.doc.buckets).Nodup) ∧
    (∀ (site : Site) (yu yt : String) (tag : Tag) (idx : Nat) (st : St),
      (yu ++ tag.href) ∈ st.processed →
      process_movie site yu tag yt idx st = st) := by
  constructor
  · intro site disk hnd
    have hinv := (moviesCreateIndex_inv site disk hnd).1
    constructor
    · intro k its it hbk hit
      have h1 : List.Sublist it.content (itemUrls it) := List.sublist_cons_self _ _
      have h2 := (h1.trans (itemUrls_sublist_itemsUrls hit)).trans (itemsUrls_sublist_doc hbk)
      exact h2.nodup hinv
    · exact (itemUrlsOnly_sublist _).nodup hinv
  · exact pm_skip

theorem c2_movies_dedup_witness :
    ((∀ k its it, (k, its) ∈ (moviesCreateIndex siteM1 none).1.doc.buckets →
        it ∈ its → it.content.Nodup) ∧
      (itemUrlsOnly (moviesCreateIndex siteM1 none).1.doc.buckets).Nodup) ∧
    process_movie siteM1 "y" ⟨some "t", "h"⟩ "2016" 2
        ⟨⟨[], none⟩, ["yh"], []⟩ = ⟨⟨[], none⟩, ["yh"], []⟩ :=
  ⟨c2_movies_dedup.1 siteM1 none (by decide),
   c2_movies_dedup.2 siteM1 "y" "2016" ⟨some "t", "h"⟩ 2 ⟨⟨[], none⟩, ["yh"], []⟩ (by decide)⟩

/-! ## Claim C1: run-twice idempotence of the movies indexer -/

theorem mem_addUrl {u : String} {p : List String} (v : String) (h : u ∈ p) :
    u ∈ addUrl p v := by
  rw [addUrl]
  split
  · exact h
  · exact List.mem_append_left _ h

theorem mem_addUrl_self (p : List String) (u : String) : u ∈ addUrl p u := by
  rw [addUrl]
  split
  · assumption
  · exact List.mem_append_right _ (List.mem_singleton_self _)

theorem contentLoop_proc_mono (mu : String) (tags : List Tag) (p : List String)
    {u : String} (h : u ∈ p) : u ∈ (contentLoop mu tags p).2.2 := by
  rw [(contentLoop_spec mu tags p).1]
  exact List.mem_append_left _ h

theorem contentLoop_nil_iff (mu : String) :
    ∀ (tags : List Tag) (p : List String),
      (contentLoop mu tags p).1 = [] ↔
      (∀ t ∈ tags,
        (truthy t.title && (pyEndsWith t.href "mkv" || pyEndsWith t.href "mp4")) = true →
        mu ++ t.href ∈ p) := by
  intro tags
  induction tags with
  | nil => intro p; simp [contentLoop]
  | cons t ts ih =>
    intro p
    by_cases hq : (truthy t.title && (pyEndsWith t.href "mkv" || pyEndsWith t.href "mp4")) = true
    · by_cases hm : (mu ++ t.href) ∈ p
      · rw [contentLoop, if_pos hq, if_pos hm]
        rw [ih p]
        constructor
        · intro hall t2 ht2 hq2
          rcases List.mem_cons.mp ht2 with rfl | ht3
          · exact hm
          · exact hall t2 ht3 hq2
        · intro hall t2 ht2 hq2
          exact hall t2 (List.mem_cons_of_mem _ ht2) hq2
      · rw [contentLoop, if_pos hq, if_neg hm]
        constructor
        · intro hfalse; cases hfalse
        · intro hall
          exact absurd (hall t (List.mem_cons_self _ _) hq) hm
    · rw [contentLoop, if_neg hq]
      rw [ih p]
      constructor
      · intro hall t2 ht2 hq2
        rcases List.mem_cons.mp ht2 with rfl | ht3
        · exact absurd hq2 hq
        · exact hall t2 ht3 hq2
      · intro hall t2 ht2 hq2
        exact hall t2 (List.mem_cons_of_mem _ ht2) hq2

theorem pm_proc_mono (site : Site) (yu yt : String) (tag : Tag) (idx : Nat) (st : St)
    {u : String} (h : u ∈ st.processed) :
    u ∈ (process_movie site yu tag yt idx st).processed := by
  rw [process_movie]
  rcases htag : tag.title with _ | title <;> simp only [htag]
  · exact h
  · by_cases hp : (yu ++ tag.href) ∈ st.processed
    · rw [if_pos hp]; exact h
    · rw [if_neg hp]
      rcases hsite : site (yu ++ tag.href) with _ | links <;> simp only [hsite, logEv]
      · exact h
      · rcases hres : (contentLoop (yu ++ tag.href) links st.processed).1 with _ | ⟨cu, cus⟩ <;>
          simp only [hres]
        · exact contentLoop_proc_mono _ links _ h
        · exact mem_addUrl _ (contentLoop_proc_mono _ links _ h)

theorem yearMovies_proc_mono (site : Site) (yu yt : String) (idx : Nat) :
    ∀ (tags : List Tag) (st : St) {u : String}, u ∈ st.processed →
      u ∈ (yearMovies site yu yt idx tags st).processed := by
  intro tags
  induction tags with
  | nil => intro st u h; exact h
  | cons t ts ih =>
    intro st u h
    rw [yearMovies]
    exact ih _ (pm_proc_mono site yu yt t idx st h)

theorem yearsLoop_proc_mono (site : Site) (mp : String) (idx : Nat) :
    ∀ (tags : List Tag) (st : St) {u : String}, u ∈ st.processed →
      u ∈ (yearsLoop site mp idx tags st).processed := by
  intro tags
  induction tags with
  | nil => intro st u h; exact h
  | cons y ys ih =>
    intro st u h
    rw [yearsLoop]
    rcases hty : y.title with _ | ytitle <;> simp only [hty]
    case none => exact ih _ h
    case some =>
      by_cases hy : (ytitle == "") = true
      · rw [if_pos hy]; exact ih _ h
      · rw [if_neg hy]
        rcases hsite : site (mp ++ y.href) with _ | pg <;> simp only [hsite, logEv]
        · exact ih _ h
        · exact ih _ (yearMovies_proc_mono site _ _ idx pg _ h)

theorem categoryLoop_proc_mono (site : Site) (url : String) (idx : Nat) :
    ∀ (tags : List Tag) (st : St) {u : String}, u ∈ st.processed →
      u ∈ (categoryLoop site url idx tags st).processed := by
  intro tags
  induction tags with
  | nil => intro st u h; exact h
  | cons l ls ih =>
    intro st u h
    rw [categoryLoop]
    rcases htl : l.title with _ | t <;> simp only [htl]
    case none => exact ih _ h
    case some =>
      by_cases hskip : (t == "" || !pyContains (pyLower t) "movie") = true
      · rw [if_pos hskip]; exact ih _ h
      · rw [if_neg hskip]
        rcases hsite : site (url ++ l.href) with _ | pg <;> simp only [hsite, logEv]
        · exact ih _ h
        · exact ih _ (yearsLoop_proc_mono site _ idx pg _ h)

theorem mirrorsLoop_proc_mono (site : Site) :
    ∀ (idxs : List Nat) (st : St) {u : String}, u ∈ st.processed →
      u ∈ (mirrorsLoop site idxs st).processed := by
  intro idxs
  induction idxs with
  | nil => intro st u h; exact h
  | cons i rest ih =>
    intro st u h
    rcases hsite : site (mirrorUrl i) with _ | pg <;> simp only [mirrorsLoop, hsite, logEv]
    · exact ih _ h
    · exact ih _ (categoryLoop_proc_mono site _ i pg _ h)

theorem fetchMovie_not_in_fetchPage {u v : String}
    (h : Ev.fetchMovie u ∈ (logEv (st : St) (.fetchPage v)).events) :
    Ev.fetchMovie u ∈ st.events := by
  simp only [logEv] at h
  rcases List.mem_append.mp h with h2 | h2
  · exact h2
  · simp at h2

theorem pm_fetchMovie (site : Site) (yu yt : String) (tag : Tag) (idx : Nat) (st : St)
    {u : String} (h : Ev.fetchMovie u ∈ (process_movie site yu tag yt idx st).events) :
    Ev.fetchMovie u ∈ st.events ∨ u ∉ st.processed := by
  rw [process_movie] at h
  rcases htag : tag.title with _ | title <;> simp only [htag] at h
  · exact Or.inl h
  · by_cases hp : (yu ++ tag.href) ∈ st.processed
    · rw [if_pos hp] at h; exact Or.inl h
    · rw [if_neg hp] at h
      have hsing : Ev.fetchMovie u ∈ st.events ++ [Ev.fetchMovie (yu ++ tag.href)] →
          Ev.fetchMovie u ∈ st.events ∨ u ∉ st.processed := by
        intro h2
        rcases List.mem_append.mp h2 with h3 | h3
        · exact Or.inl h3
        · have h4 := List.mem_singleton.mp h3
          have h5 : u = yu ++ tag.href := by
            injection h4
          rw [h5]
          exact Or.inr hp
      rcases hsite : site (yu ++ tag.href) with _ | links <;> simp only [hsite, logEv] at h
      · exact hsing h
      · rcases hres : (contentLoop (yu ++ tag.href) links st.processed).1 with _ | ⟨cu, cus⟩ <;>
          simp only [hres] at h
        · exact hsing h
        · rcases List.mem_append.mp h with h2 | h2
          · exact hsing h2
          · simp at h2

theorem yearMovies_fetchMovie (site : Site) (yu yt : String) (idx : Nat) :
    ∀ (tags : List Tag) (st : St) {u : String},
      Ev.fetchMovie u ∈ (yearMovies site yu yt idx tags st).events →
      Ev.fetchMovie u ∈ st.events ∨ u ∉ st.processed := by
  intro tags
  induction tags with
  | nil => intro st u h; exact Or.inl h
  | cons t ts ih =>
    intro st u h
    rw [yearMovies] at h
    rcases ih _ h with h2 | h2
    · exact pm_fetchMovie site yu yt t idx st h2
    · exact Or.inr (fun hin => h2 (pm_proc_mono site yu yt t idx st hin))

theorem yearsLoop_fetchMovie (site : Site) (mp : String) (idx : Nat) :
    ∀ (tags : List Tag) (st : St) {u : String},
      Ev.fetchMovie u ∈ (yearsLoop site mp idx tags st).events →
      Ev.fetchMovie u ∈ st.events ∨ u ∉ st.processed := by
  intro tags
  induction tags with
  | nil => intro st u h; exact Or.inl h
  | cons y ys ih =>
    intro st u h
    rw [yearsLoop] at h
    rcases hty : y.title with _ | ytitle <;> simp only [hty] at h
    case none => exact ih _ h
    case some =>
      by_cases hy : (ytitle == "") = true
      · rw [if_pos hy] at h; exact ih _ h
      · rw [if_neg hy] at h
        rcases hsite : site (mp ++ y.href) with _ | pg <;> simp only [hsite] at h
        · rcases ih _ h with h2 | h2
          · exact Or.inl (fetchMovie_not_in_fetchPage h2)
          · exact Or.inr h2
        · rcases ih _ h with h2 | h2
          · rcases yearMovies_fetchMovie site (mp ++ y.href) ytitle idx pg _ h2 with h3 | h3
            · exact Or.inl (fetchMovie_not_in_fetchPage h3)
            · exact Or.inr h3
          · exact Or.inr (fun hin =>
              h2 (yearMovies_proc_mono site (mp ++ y.href) ytitle idx pg _ hin))

theorem categoryLoop_fetchMovie (site : Site) (url : String) (idx : Nat) :
    ∀ (tags : List Tag) (st : St) {u : String},
      Ev.fetchMovie u ∈ (categoryLoop site url idx tags st).events →
      Ev.fetchMovie u ∈ st.events ∨ u ∉ st.processed := by
  intro tags
  induction tags with
  | nil => intro st u h; exact Or.inl h
  | cons l ls ih =>
    intro st u h
    rw [categoryLoop] at h
    rcases htl : l.title with _ | t <;> simp only [htl] at h
    case none => exact ih _ h
    case some =>
      by_cases hskip : (t == "" || !pyContains (pyLower t) "movie") = true
      · rw [if_pos hskip] at h; exact ih _ h
      · rw [if_neg hskip] at h
        rcases hsite : site (url ++ l.href) with _ | pg <;> simp only [hsite] at h
        · rcases ih _ h with h2 | h2
          · exact Or.inl (fetchMovie_not_in_fetchPage h2)
          · exact Or.inr h2
        · rcases ih _ h with h2 | h2
          · rcases yearsLoop_fetchMovie site (url ++ l.href) idx pg _ h2 with h3 | h3
            · exact Or.inl (fetchMovie_not_in_fetchPage h3)
            · exact Or.inr h3
          · exact Or.inr (fun hin =>
              h2 (yearsLoop_proc_mono site (url ++ l.href) idx pg _ hin))

theorem mirrorsLoop_fetchMovie (site : Site) :
    ∀ (idxs : List Nat) (st : St) {u : String},
      Ev.fetchMovie u ∈ (mirrorsLoop site idxs st).events →
      Ev.fetchMovie u ∈ st.events ∨ u ∉ st.processed := by
  intro idxs
  induction idxs with
  | nil => intro st u h; exact Or.inl h
  | cons i rest ih =>
    intro st u h
    rcases hsite : site (mirrorUrl i) with _ | pg <;>
      simp only [mirrorsLoop, hsite] at h
    · rcases ih _ h with h2 | h2
      · exact Or.inl (fetchMovie_not_in_fetchPage h2)
      · exact Or.inr h2
    · rcases ih _ h with h2 | h2
      · rcases categoryLoop_fetchMovie site (mirrorUrl i) i pg _ h2 with h3 | h3
        · exact Or.inl (fetchMovie_not_in_fetchPage h3)
        · exact Or.inr h3
      · exact Or.inr (fun hin =>
          h2 (categoryLoop_proc_mono site (mirrorUrl i) i pg _ hin))

theorem pm_stable (site : Site) (yu yt : String) (tag : Tag) (idx : Nat) (stA st2 : St)
    (hmono : ∀ u ∈ stA.processed, u ∈ st2.processed)
    (hout : ∀ u ∈ (process_movie site yu tag yt idx stA).processed, u ∈ st2.processed) :
    (process_movie site yu tag yt idx st2).doc = st2.doc ∧
    (process_movie site yu tag yt idx st2).processed = st2.processed := by
  rw [process_movie]
  rcases htag : tag.title with _ | title <;> simp only [htag]
  · exact ⟨by trivial, by trivial⟩
  · by_cases hp2 : (yu ++ tag.href) ∈ st2.processed
    · rw [if_pos hp2]; exact ⟨by trivial, by trivial⟩
    · rw [if_neg hp2]
      have hpA : (yu ++ tag.href) ∉ stA.processed := fun hh => hp2 (hmono _ hh)
      rcases hsite : site (yu ++ tag.href) with _ | links <;> simp only [hsite, logEv]
      · exact ⟨by trivial, by trivial⟩
      · rw [process_movie] at hout
        simp only [htag] at hout
        rw [if_neg hpA] at hout
        simp only [hsite, logEv] at hout
        rcases hresA : (contentLoop (yu ++ tag.href) links stA.processed).1 with _ | ⟨cu, cus⟩
        · have hall := (contentLoop_nil_iff (yu ++ tag.href) links stA.processed).mp hresA
          have hres2 : (contentLoop (yu ++ tag.href) links st2.processed).1 = [] := by
            rw [contentLoop_nil_iff]
            intro t ht hq
            exact hmono _ (hall t ht hq)
          simp only [hres2]
          refine ⟨by trivial, ?_⟩
          rw [(contentLoop_spec (yu ++ tag.href) links st2.processed).1, hres2, List.append_nil]
        · exfalso
          apply hp2
          apply hout
          simp only [hresA]
          exact mem_addUrl_self _ _

theorem yearMovies_stable (site : Site) (yu yt : String) (idx : Nat) :
    ∀ (tags : List Tag) (stA st2 : St),
      (∀ u ∈ stA.processed, u ∈ st2.processed) →
      (∀ u ∈ (yearMovies site yu yt idx tags stA).processed, u ∈ st2.processed) →
      (yearMovies site yu yt idx tags st2).doc = st2.doc ∧
      (yearMovies site yu yt idx tags st2).processed = st2.processed := by
  intro tags
  induction tags with
  | nil => intro stA st2 _ _; exact ⟨rfl, rfl⟩
  | cons t ts ih =>
    intro stA st2 hmono hout
    rw [yearMovies]
    rw [yearMovies] at hout
    have hout_pm : ∀ u ∈ (process_movie site yu t yt idx stA).processed,
        u ∈ st2.processed :=
      fun u hu => hout u (yearMovies_proc_mono site yu yt idx ts _ hu)
    obtain ⟨hd2, hp2⟩ := pm_stable site yu yt t idx stA st2 hmono hout_pm
    have hmono2 : ∀ u ∈ (process_movie site yu t yt idx stA).processed,
        u ∈ (process_movie site yu t yt idx st2).processed := by
      intro u hu; rw [hp2]; exact hout_pm u hu
    have hout2 : ∀ u ∈ (yearMovies site yu yt idx ts
        (process_movie site yu t yt idx stA)).processed,
        u ∈ (process_movie site yu t yt idx st2).processed := by
      intro u hu; rw [hp2]; exact hout u hu
    obtain ⟨hd3, hp3⟩ := ih (process_movie site yu t yt idx stA)
      (process_movie site yu t yt idx st2) hmono2 hout2
    exact ⟨hd3.trans hd2, hp3.trans hp2⟩

theorem yearsLoop_stable (site : Site) (mp : String) (idx : Nat) :
    ∀ (tags : List Tag) (stA st2 : St),
      (∀ u ∈ stA.processed, u ∈ st2.processed) →
      (∀ u ∈ (yearsLoop site mp idx tags stA).processed, u ∈ st2.processed) →
      (yearsLoop site mp idx tags st2).doc = st2.doc ∧
      (yearsLoop site mp idx tags st2).processed = st2.processed := by
  intro tags
  induction tags with
  | nil => intro stA st2 _ _; exact ⟨rfl, rfl⟩
  | cons y ys ih =>
    intro stA st2 hmono hout
    rw [yearsLoop]
    rw [yearsLoop] at hout
    rcases hty : y.title with _ | ytitle <;> simp only [hty] <;> simp only [hty] at hout
    case none => exact ih stA st2 hmono hout
    case some =>
      by_cases hy : (ytitle == "") = true
      · rw [if_pos hy]; rw [if_pos hy] at hout; exact ih stA st2 hmono hout
      · rw [if_neg hy]; rw [if_neg hy] at hout
        rcases hsite : site (mp ++ y.href) with _ | pg <;>
          simp only [hsite, logEv] <;> simp only [hsite, logEv] at hout
        · exact ih { doc := stA.doc, processed := stA.processed,
                     events := stA.events ++ [Ev.fetchPage (mp ++ y.href)] } _
            (fun u hu => hmono u hu) hout
        · have hout_ym : ∀ u ∈ (yearMovies site (mp ++ y.href) ytitle idx pg
              (logEv stA (.fetchPage (mp ++ y.href)))).processed, u ∈ st2.processed :=
            fun u hu => hout u (yearsLoop_proc_mono site mp idx ys _ hu)
          obtain ⟨hd2, hp2⟩ := yearMovies_stable site (mp ++ y.href) ytitle idx pg
            (logEv stA (.fetchPage (mp ++ y.href))) (logEv st2 (.fetchPage (mp ++ y.href)))
            hmono hout_ym
          have hmono2 : ∀ u ∈ (yearMovies site (mp ++ y.href) ytitle idx pg
              (logEv stA (.fetchPage (mp ++ y.href)))).processed,
              u ∈ (yearMovies site (mp ++ y.href) ytitle idx pg
                (logEv st2 (.fetchPage (mp ++ y.href)))).processed := by
            intro u hu; rw [hp2]; exact hout_ym u hu
          have hout2 : ∀ u ∈ (yearsLoop site mp idx ys (yearMovies site (mp ++ y.href) ytitle idx pg
              (logEv stA (.fetchPage (mp ++ y.href))))).processed,
              u ∈ (yearMovies site (mp ++ y.href) ytitle idx pg
                (logEv st2 (.fetchPage (mp ++ y.href)))).processed := by
            intro u hu; rw [hp2]; exact hout u hu
          obtain ⟨hd3, hp3⟩ := ih _ _ hmono2 hout2
          exact ⟨hd3.trans hd2, hp3.trans hp2⟩

theorem categoryLoop_stable (site : Site) (url : String) (idx : Nat) :
    ∀ (tags : List Tag) (stA st2 : St),
      (∀ u ∈ stA.processed, u ∈ st2.processed) →
      (∀ u ∈ (categoryLoop site url idx tags stA).processed, u ∈ st2.processed) →
      (categoryLoop site url idx tags st2).doc = st2.doc ∧
      (categoryLoop site url idx tags st2).processed = st2.processed := by
  intro tags
  induction tags with
  | nil => intro stA st2 _ _; exact ⟨rfl, rfl⟩
  | cons l ls ih =>
    intro stA st2 hmono hout
    rw [categoryLoop]
    rw [categoryLoop] at hout
    rcases htl : l.title with _ | t <;> simp only [htl] <;> simp only [htl] at hout
    case none => exact ih stA st2 hmono hout
    case some =>
      by_cases hskip : (t == "" || !pyContains (pyLower t) "movie") = true
      · rw [if_pos hskip]; rw [if_pos hskip] at hout; exact ih stA st2 hmono hout
      · rw [if_neg hskip]; rw [if_neg hskip] at hout
        rcases hsite : site (url ++ l.href) with _ | pg <;>
          simp only [hsite, logEv] <;> simp only [hsite, logEv] at hout
        · exact ih { doc := stA.doc, processed := stA.processed,
                     events := stA.events ++ [Ev.fetchPage (url ++ l.href)] } _
            (fun u hu => hmono u hu) hout
        · have hout_yl : ∀ u ∈ (yearsLoop site (url ++ l.href) idx pg
              (logEv stA (.fetchPage (url ++ l.href)))).processed, u ∈ st2.processed :=
            fun u hu => hout u (categoryLoop_proc_mono site url idx ls _ hu)
          obtain ⟨hd2, hp2⟩ := yearsLoop_stable site (url ++ l.href) idx pg
            (logEv stA (.fetchPage (url ++ l.href))) (logEv st2 (.fetchPage (url ++ l.href)))
            hmono hout_yl
          have hmono2 : ∀ u ∈ (yearsLoop site (url ++ l.href) idx pg
              (logEv stA (.fetchPage (url ++ l.href)))).processed,
              u ∈ (yearsLoop site (url ++ l.href) idx pg
                (logEv st2 (.fetchPage (url ++ l.href)))).processed := by
            intro u hu; rw [hp2]; exact hout_yl u hu
          have hout2 : ∀ u ∈ (categoryLoop site url idx ls (yearsLoop site (url ++ l.href) idx pg
              (logEv stA (.fetchPage (url ++ l.href))))).processed,
              u ∈ (yearsLoop site (url ++ l.href) idx pg
                (logEv st2 (.fetchPage (url ++ l.href)))).processed := by
            intro u hu; rw [hp2]; exact hout u hu
          obtain ⟨hd3, hp3⟩ := ih _ _ hmono2 hout2
          exact ⟨hd3.trans hd2, hp3.trans hp2⟩

theorem mirrorsLoop_stable (site : Site) :
    ∀ (idxs : List Nat) (stA st2 : St),
      (∀ u ∈ stA.processed, u ∈ st2.processed) →
      (∀ u ∈ (mirrorsLoop site idxs stA).processed, u ∈ st2.processed) →
      (mirrorsLoop site idxs st2).doc = st2.doc ∧
      (mirrorsLoop site idxs st2).processed = st2.processed := by
  intro idxs
  induction idxs with
  | nil => intro stA st2 _ _; exact ⟨rfl, rfl⟩
  | cons i rest ih =>
    intro stA st2 hmono hout
    rcases hsite : site (mirrorUrl i) with _ | pg <;>
      simp only [mirrorsLoop, hsite, logEv] <;> simp only [mirrorsLoop, hsite, logEv] at hout
    · exact ih { doc := stA.doc, processed := stA.processed,
                 events := stA.events ++ [Ev.fetchPage (mirrorUrl i)] } _
        (fun u hu => hmono u hu) hout
    · have hout_cl : ∀ u ∈ (categoryLoop site (mirrorUrl i) i pg
          (logEv stA (.fetchPage (mirrorUrl i)))).processed, u ∈ st2.processed :=
        fun u hu => hout u (mirrorsLoop_proc_mono site rest _ hu)
      obtain ⟨hd2, hp2⟩ := categoryLoop_stable site (mirrorUrl i) i pg
        (logEv stA (.fetchPage (mirrorUrl i))) (logEv st2 (.fetchPage (mirrorUrl i)))
        hmono hout_cl
      have hmono2 : ∀ u ∈ (categoryLoop site (mirrorUrl i) i pg
          (logEv stA (.fetchPage (mirrorUrl i)))).processed,
          u ∈ (categoryLoop site (mirrorUrl i) i pg
            (logEv st2 (.fetchPage (mirrorUrl i)))).processed := by
        intro u hu; rw [hp2]; exact hout_cl u hu
      have hout2 : ∀ u ∈ (mirrorsLoop site rest (categoryLoop site (mirrorUrl i) i pg
          (logEv stA (.fetchPage (mirrorUrl i))))).processed,
          u ∈ (categoryLoop site (mirrorUrl i) i pg
            (logEv st2 (.fetchPage (mirrorUrl i)))).processed := by
        intro u hu; rw [hp2]; exact hout u hu
      obtain ⟨hd3, hp3⟩ := ih _ _ hmono2 hout2
      exact ⟨hd3.trans hd2, hp3.trans hp2⟩

theorem catalog_eta (c : Catalog) (hc : c.last_processed = none) :
    ({ c with last_processed := none } : Catalog) = c := by
  cases c
  simp_all

theorem mRunOnce_eq (site : Site) :
    mRunOnce site =
      ({ doc := mFinalDoc site, processed := (mTraverse site).processed,
         events := (mTraverse site).events ++ [Ev.save (mFinalDoc site)] }, none) := by
  have h0 : startIndex (load_progress (none : Option Catalog)).1 ∈ working_index := by decide
  rw [mRunOnce]
  simp only [moviesCreateIndex]
  rw [if_pos h0]
  rfl

/-- **C1** (amended, movies part): running `MoviesIndexer.create_index`
twice against an unchanged fixture site, the second run loading the
document the first persisted: both runs complete without error, the
persisted document of the first run is its final in-memory document, the
second run's document equals the first run's entry for entry, and the
second run issues no movie-page fetch (`_process_movie`'s fetch) for any
URL recorded in the loaded catalog.  (Listing-page fetches are repeated
unconditionally and may coincide with recorded URLs, and the series
indexer duplicates content entries on a re-run: see the counterexample.) -/
theorem c1_movies_idempotent (site : Site) :
    (mRunOnce site).2 = none ∧
    lastSavedDoc (mRunOnce site).1.events = some (mRunOnce site).1.doc ∧
    (mRunTwice site).2 = none ∧
    (mRunTwice site).1.doc = (mRunOnce site).1.doc ∧
    (∀ u, Ev.fetchMovie u ∈ (mRunTwice site).1.events →
      u ∉ docUrlList (mRunOnce site).1.doc.buckets) := by
  have hrun1 := mRunOnce_eq site
  have hnd0 : (docUrlList (load_progress (none : Option Catalog)).1.buckets).Nodup := by
    decide
  have hinv := (moviesCreateIndex_inv site none hnd0).2
  have hmr : moviesCreateIndex site none = mRunOnce site := rfl
  rw [hmr, hrun1] at hinv
  dsimp only at hinv
  -- hinv : ∀ u, u ∈ (mTraverse site).processed ↔ u ∈ docUrlList (mFinalDoc site).buckets
  have hsi2 : startIndex (mFinalDoc site) = 2 := rfl
  have hmem2 : startIndex (mFinalDoc site) ∈ working_index := by
    rw [hsi2]; decide
  have hslice : sliceFrom working_index (startIndex (mFinalDoc site)) = mSliceStart := rfl
  have hrun2 : mRunTwice site =
      ({ doc := { (mirrorsLoop site mSliceStart
            ⟨mFinalDoc site, docUrlList (mFinalDoc site).buckets, []⟩).doc with
            last_processed := none },
         processed := (mirrorsLoop site mSliceStart
            ⟨mFinalDoc site, docUrlList (mFinalDoc site).buckets, []⟩).processed,
         events := (mirrorsLoop site mSliceStart
            ⟨mFinalDoc site, docUrlList (mFinalDoc site).buckets, []⟩).events ++
           [Ev.save { (mirrorsLoop site mSliceStart
              ⟨mFinalDoc site, docUrlList (mFinalDoc site).buckets, []⟩).doc with
              last_processed := none }] }, none) := by
    rw [mRunTwice, hrun1]
    dsimp only
    simp only [moviesCreateIndex, load_progress]
    rw [if_pos hmem2, hslice]
  obtain ⟨hd2, hp2⟩ := mirrorsLoop_stable site mSliceStart ⟨mLoad.1, mLoad.2, []⟩
    ⟨mFinalDoc site, docUrlList (mFinalDoc site).buckets, []⟩
    (fun u hu => absurd hu (List.not_mem_nil u))
    (fun u hu => (hinv u).mp hu)
  refine ⟨?_, ?_, ?_, ?_, ?_⟩
  · rw [hrun1]
  · rw [hrun1]
    exact lastSavedDoc_append_save _ _
  · rw [hrun2]
  · rw [hrun2, hrun1]
    dsimp only
    rw [hd2]
    exact catalog_eta _ rfl
  · intro u hu
    rw [hrun2] at hu
    dsimp only at hu
    rw [hrun1]
    dsimp only
    rcases List.mem_append.mp hu with h2 | h2
    · rcases mirrorsLoop_fetchMovie site mSliceStart
          ⟨mFinalDoc site, docUrlList (mFinalDoc site).buckets, []⟩ h2 with h3 | h3
      · exact absurd h3 (List.not_mem_nil _)
      · exact h3
    · simp at h2

theorem c1_movies_idempotent_witness :
    (mRunTwice siteM1).1.doc = (mRunOnce siteM1).1.doc ∧
    "https://dl2.sermoviedown.pw/a/yb/n" ∉ docUrlList (mRunOnce siteM1).1.doc.buckets :=
  ⟨(c1_movies_idempotent siteM1).2.2.2.1,
   (c1_movies_idempotent siteM1).2.2.2.2 "https://dl2.sermoviedown.pw/a/yb/n" (by decide)⟩

end MovieHub
